import Mathlib

/-!
# Verification of the caching / rate-limiting substrate of `blog-backend`

Shallow embedding of `src/redis/redis.service.ts` (RedisService) and
`src/common/guards/rate-limit.guard.ts` (RateLimitGuard), together with the
guard variant found in the repository (`src/unnamed/part_013`).

Modelling conventions:
* The Redis server is a pure store: an association list from keys to entries,
  where an entry is a string or a hash plus an optional absolute expiry time
  in milliseconds.  Commands are pure functions on the store; time is an
  explicit `now : Nat` parameter (milliseconds, the JS `Date.now()`).
* A key whose expiry time is `≤ now` is treated as absent (store-managed TTL).
* A client call that throws (connection fault) is modelled by an explicit
  Boolean fault flag per client call: when the flag is set the call raises
  and the command does not execute (store unchanged).  The service layer's
  `try/catch` blocks are translated faithfully around those flags.
* JavaScript truthiness is modelled where the source relies on it
  (`if (ttl)`, `value ? ... : ...`, `request.ip || ...`).
* JSON numbers are modelled as integers (the cached payloads of this
  repository serialize integer ids/counts); floating point is out of scope.
-/

namespace BlogCache

/-! ## JavaScript primitives used by the source -/

/-- Digit character for a value `< 10` (explicit table so proofs can case). -/
def digitChar : Nat → Char
  | 0 => '0' | 1 => '1' | 2 => '2' | 3 => '3' | 4 => '4'
  | 5 => '5' | 6 => '6' | 7 => '7' | 8 => '8' | _ => '9'

/-- Digit characters of `n`, most significant first (empty for 0);
fuel-structured so that concrete values reduce definitionally. -/
def natCharsAux : Nat → Nat → List Char
  | 0, _ => []
  | fuel + 1, n =>
    if n = 0 then [] else natCharsAux fuel (n / 10) ++ [digitChar (n % 10)]

/-- Decimal digit list (most significant first) of a natural number,
rendered as characters; `0` renders as `"0"`. -/
def natChars (n : Nat) : List Char :=
  if n = 0 then ['0'] else natCharsAux n n

/-- JavaScript rendering of an integer-valued number, `String(n)` /
`${n}` / `JSON.stringify(n)` all agree on integers. -/
def intChars (n : Int) : List Char :=
  if n < 0 then '-' :: natChars n.natAbs else natChars n.toNat

def intStr (n : Int) : String := String.mk (intChars n)

def digitVal (c : Char) : Nat := c.toNat - 48

/-- Value of a most-significant-first digit-character run. -/
def digitRunVal (cs : List Char) : Nat :=
  cs.foldl (fun a c => a * 10 + digitVal c) 0

/-- Longest leading digit run as a number; `none` when there is none. -/
def digitPrefixVal (cs : List Char) : Option Nat :=
  let ds := cs.takeWhile Char.isDigit
  if ds = [] then none else some (digitRunVal ds)

/-- `parseInt(s, 10)`: skip leading spaces, optional sign, then the longest
leading run of decimal digits; `none` models `NaN`. -/
def parseIntJS (s : String) : Option Int :=
  match s.data.dropWhile (fun c => c = ' ') with
  | [] => none
  | c :: rest =>
    if c = '-' then (digitPrefixVal rest).map (fun m => -(m : Int))
    else if c = '+' then (digitPrefixVal rest).map (fun m => (m : Int))
    else (digitPrefixVal (c :: rest)).map (fun m => (m : Int))

/-- JS truthiness of an optional numeric argument (`if (ttl)`):
absent and `0` are falsy. -/
def ttlTruthy : Option Nat → Bool
  | none => false
  | some n => n != 0

/-- JS truthiness of a nullable string (`value ? _ : _`):
`null` and the empty string are falsy. -/
def strTruthy : Option String → Bool
  | none => false
  | some s => s != ""

/-! ## The Redis store model -/

/-- A stored Redis value: a plain string or a hash of fields. -/
inductive RVal where
  | str (s : String)
  | hash (fields : List (String × String))
deriving DecidableEq, Repr

/-- A key's entry: value plus optional absolute expiry (ms). -/
structure Entry where
  val : RVal
  expireAt : Option Nat
deriving DecidableEq, Repr

/-- The key space of the shared store. -/
structure Store where
  data : List (String × Entry)
deriving DecidableEq, Repr

/-- Raw lookup (first binding wins). -/
def Store.find (s : Store) (k : String) : Option Entry :=
  (s.data.find? (fun p => p.1 == k)).map (·.2)

/-- An entry is live at time `now` if it has no expiry or has not expired. -/
def Entry.live (now : Nat) (e : Entry) : Bool :=
  match e.expireAt with
  | none => true
  | some t => now < t

/-- Lookup as the store presents it: expired entries are absent. -/
def Store.liveFind (now : Nat) (s : Store) (k : String) : Option Entry :=
  match s.find k with
  | none => none
  | some e => if e.live now then some e else none

/-- Replace / create the binding of `k`. -/
def Store.put (s : Store) (k : String) (e : Entry) : Store :=
  ⟨(k, e) :: s.data.filter (fun p => !(p.1 == k))⟩

/-- Remove the binding of `k`. -/
def Store.remove (s : Store) (k : String) : Store :=
  ⟨s.data.filter (fun p => !(p.1 == k))⟩

/-- Well-formed store: one binding per key. -/
def Store.WF (s : Store) : Prop := (s.data.map (·.1)).Nodup

/-! ### Redis commands (server semantics, pure) -/

/-- `GET key` — `none` for absent, `error` on wrong type. -/
def redisGet (now : Nat) (s : Store) (k : String) : Except Unit (Option String) :=
  match s.liveFind now k with
  | none => .ok none
  | some ⟨.str v, _⟩ => .ok (some v)
  | some ⟨.hash _, _⟩ => .error ()

/-- `SET key v` — discards any previous TTL. -/
def redisSet (s : Store) (k v : String) : Store :=
  s.put k ⟨.str v, none⟩

/-- `SETEX key ttl v` — TTL in seconds from `now`. -/
def redisSetex (now : Nat) (s : Store) (k : String) (ttl : Nat) (v : String) : Store :=
  s.put k ⟨.str v, some (now + ttl * 1000)⟩

/-- `DEL k…` — removes the keys, counting those that existed (live). -/
def redisDel (now : Nat) (s : Store) (ks : List String) : Nat × Store :=
  ks.foldl
    (fun acc k =>
      match acc.2.liveFind now k with
      | some _ => (acc.1 + 1, acc.2.remove k)
      | none => (acc.1, acc.2.remove k))
    (0, s)

/-- `EXISTS key`. -/
def redisExists (now : Nat) (s : Store) (k : String) : Nat :=
  match s.liveFind now k with
  | some _ => 1
  | none => 0

/-- `INCR key` — creates the counter at 1 (no TTL), otherwise parses the
stored integer and adds one, keeping the TTL; errors on non-integers. -/
def redisIncr (now : Nat) (s : Store) (k : String) : Except Unit (Int × Store) :=
  match s.liveFind now k with
  | none => .ok (1, s.put k ⟨.str (intStr 1), none⟩)
  | some ⟨.str v, e⟩ =>
      match redisParseInt v with
      | some n => .ok (n + 1, s.put k ⟨.str (intStr (n + 1)), e⟩)
      | none => .error ()
  | some ⟨.hash _, _⟩ => .error ()
where
  /-- Redis accepts exactly an optional minus sign plus digits. -/
  redisParseInt (v : String) : Option Int :=
    match v.data with
    | [] => none
    | c :: rest =>
      if c = '-' then
        if rest ≠ [] ∧ rest.all Char.isDigit then some (-(digitRunVal rest : Int)) else none
      else if (c :: rest).all Char.isDigit then some (digitRunVal (c :: rest) : Int)
      else none

/-- `DECR key` — symmetric to `INCR`. -/
def redisDecr (now : Nat) (s : Store) (k : String) : Except Unit (Int × Store) :=
  match s.liveFind now k with
  | none => .ok (-1, s.put k ⟨.str (intStr (-1)), none⟩)
  | some ⟨.str v, e⟩ =>
      match redisIncr.redisParseInt v with
      | some n => .ok (n - 1, s.put k ⟨.str (intStr (n - 1)), e⟩)
      | none => .error ()
  | some ⟨.hash _, _⟩ => .error ()

/-- `EXPIRE key seconds` — 1 if the key existed and the TTL was set. -/
def redisExpire (now : Nat) (s : Store) (k : String) (seconds : Nat) : Nat × Store :=
  match s.liveFind now k with
  | none => (0, s)
  | some e => (1, s.put k ⟨e.val, some (now + seconds * 1000)⟩)

/-- `TTL key` — -2 absent, -1 no expiry, otherwise remaining whole seconds. -/
def redisTtl (now : Nat) (s : Store) (k : String) : Int :=
  match s.liveFind now k with
  | none => -2
  | some ⟨_, none⟩ => -1
  | some ⟨_, some t⟩ => ((t - now + 999) / 1000 : Nat)

/-- Redis glob matching (`*`, `?`, literal characters), fuel-structured;
every step shortens pattern or subject, so `|pattern| + |subject| + 1` fuel
is always sufficient. -/
def globMatchAux : Nat → List Char → List Char → Bool
  | 0, _, _ => false
  | f + 1, ps0, cs0 =>
    match ps0, cs0 with
    | [], [] => true
    | '*' :: ps, [] => globMatchAux f ps []
    | _ :: _, [] => false
    | [], _ :: _ => false
    | '*' :: ps, c :: cs => globMatchAux f ps (c :: cs) || globMatchAux f ('*' :: ps) cs
    | '?' :: ps, _ :: cs => globMatchAux f ps cs
    | p :: ps, c :: cs => p == c && globMatchAux f ps cs

def globMatch (ps cs : List Char) : Bool :=
  globMatchAux (ps.length + cs.length + 1) ps cs

def keyMatches (pattern k : String) : Bool := globMatch pattern.data k.data

/-- A full cursor sweep of `SCAN MATCH pattern`: every live matching key. -/
def redisScanMatch (now : Nat) (s : Store) (pattern : String) : List String :=
  (s.data.filter (fun p => p.2.live now && keyMatches pattern p.1)).map (·.1)

/-- One scan-and-batch-delete pass as `deletePattern` performs it. -/
def Store.scanFold (now : Nat) (s : Store) (pattern : String) : Store :=
  (redisScanMatch now s pattern).foldl (fun s k => s.remove k) s

/-- `HSET key field v`. -/
def redisHset (now : Nat) (s : Store) (k f v : String) : Except Unit Store :=
  match s.liveFind now k with
  | none => .ok (s.put k ⟨.hash [(f, v)], none⟩)
  | some ⟨.hash fs, e⟩ =>
      .ok (s.put k ⟨.hash ((f, v) :: fs.filter (fun p => !(p.1 == f))), e⟩)
  | some ⟨.str _, _⟩ => .error ()

/-- `HGET key field`. -/
def redisHget (now : Nat) (s : Store) (k f : String) : Except Unit (Option String) :=
  match s.liveFind now k with
  | none => .ok none
  | some ⟨.hash fs, _⟩ => .ok ((fs.find? (fun p => p.1 == f)).map (·.2))
  | some ⟨.str _, _⟩ => .error ()

/-- `HGETALL key`. -/
def redisHgetall (now : Nat) (s : Store) (k : String) : Except Unit (List (String × String)) :=
  match s.liveFind now k with
  | none => .ok []
  | some ⟨.hash fs, _⟩ => .ok fs
  | some ⟨.str _, _⟩ => .error ()

/-- `HDEL key fields…`. -/
def redisHdel (now : Nat) (s : Store) (k : String) (fields : List String) : Except Unit Store :=
  match s.liveFind now k with
  | none => .ok s
  | some ⟨.hash fs, e⟩ =>
      .ok (s.put k ⟨.hash (fs.filter (fun p => !(fields.contains p.1))), e⟩)
  | some ⟨.str _, _⟩ => .error ()

/-! ## The RedisService layer (`src/redis/redis.service.ts`)

Each method first checks `isAvailable()` and wraps its client calls in
`try/catch`.  A Boolean flag per client call injects the fault ("the awaited
call threw"); a faulted call does not execute, so the store is unchanged by
it.  Logging statements are omitted (they are observationally irrelevant). -/

/-- Connection-manager state: `client !== null` and `isConnected`. -/
structure SvcState where
  hasClient : Bool
  isConnected : Bool
deriving DecidableEq, Repr

/-- `isAvailable(): boolean { return this.isConnected && this.client !== null }` -/
def isAvailable (st : SvcState) : Bool := st.isConnected && st.hasClient

/-- `get(key)`: unavailable → `null`; client error → `null`. -/
def svcGet (st : SvcState) (fGet : Bool) (now : Nat) (s : Store) (k : String) :
    Option String × Store :=
  if !isAvailable st then (none, s)
  else if fGet then (none, s)
  else
    match redisGet now s k with
    | .ok v => (v, s)
    | .error _ => (none, s)

/-- `set(key, value, ttl?)`: `if (ttl) setex else set`; errors swallowed. -/
def svcSet (st : SvcState) (fSet : Bool) (now : Nat) (s : Store)
    (k v : String) (ttl : Option Nat) : Store :=
  if !isAvailable st then s
  else if fSet then s
  else if ttlTruthy ttl then redisSetex now s k (ttl.getD 0) v
  else redisSet s k v

/-- `del(key)`: errors swallowed. -/
def svcDel (st : SvcState) (fDel : Bool) (now : Nat) (s : Store) (k : String) : Store :=
  if !isAvailable st then s
  else if fDel then s
  else (redisDel now s [k]).2

/-- `exists(key)`: returns `result === 1`; unavailable / error → `false`. -/
def svcExists (st : SvcState) (fEx : Bool) (now : Nat) (s : Store) (k : String) : Bool :=
  if !isAvailable st then false
  else if fEx then false
  else redisExists now s k == 1

/-- `increment(key, ttl?)`: `INCR`, then `if (ttl && result === 1) EXPIRE`;
any error in the `try` yields 0 (note: if only the `EXPIRE` throws, the
increment has already been applied to the store). -/
def svcIncrement (st : SvcState) (fIncr fExpire : Bool) (now : Nat) (s : Store)
    (k : String) (ttl : Option Nat) : Int × Store :=
  if !isAvailable st then (0, s)
  else if fIncr then (0, s)
  else
    match redisIncr now s k with
    | .error _ => (0, s)
    | .ok (result, s1) =>
        if ttlTruthy ttl && result == 1 then
          if fExpire then (0, s1)
          else (result, (redisExpire now s1 k (ttl.getD 0)).2)
        else (result, s1)

/-- `decrement(key)`. -/
def svcDecrement (st : SvcState) (fDecr : Bool) (now : Nat) (s : Store)
    (k : String) : Int × Store :=
  if !isAvailable st then (0, s)
  else if fDecr then (0, s)
  else
    match redisDecr now s k with
    | .error _ => (0, s)
    | .ok (result, s1) => (result, s1)

/-- `getNumber(key)`: `value ? parseInt(value, 10) : 0`; `none` models `NaN`. -/
def svcGetNumber (st : SvcState) (fGet : Bool) (now : Nat) (s : Store)
    (k : String) : Option Int :=
  let value := (svcGet st fGet now s k).1
  if strTruthy value then parseIntJS (value.getD "") else some 0

/-- `hset(key, field, value)`. -/
def svcHset (st : SvcState) (fH : Bool) (now : Nat) (s : Store) (k f v : String) : Store :=
  if !isAvailable st then s
  else if fH then s
  else
    match redisHset now s k f v with
    | .ok s1 => s1
    | .error _ => s

/-- `hget(key, field)`. -/
def svcHget (st : SvcState) (fH : Bool) (now : Nat) (s : Store) (k f : String) :
    Option String :=
  if !isAvailable st then none
  else if fH then none
  else
    match redisHget now s k f with
    | .ok v => v
    | .error _ => none

/-- `hgetall(key)`: unavailable / error → `{}`. -/
def svcHgetall (st : SvcState) (fH : Bool) (now : Nat) (s : Store) (k : String) :
    List (String × String) :=
  if !isAvailable st then []
  else if fH then []
  else
    match redisHgetall now s k with
    | .ok fs => fs
    | .error _ => []

/-- `hdel(key, ...fields)`. -/
def svcHdel (st : SvcState) (fH : Bool) (now : Nat) (s : Store) (k : String)
    (fields : List String) : Store :=
  if !isAvailable st then s
  else if fH then s
  else
    match redisHdel now s k fields with
    | .ok s1 => s1
    | .error _ => s

/-- `expire(key, seconds)`. -/
def svcExpire (st : SvcState) (fE : Bool) (now : Nat) (s : Store) (k : String)
    (seconds : Nat) : Store :=
  if !isAvailable st then s
  else if fE then s
  else (redisExpire now s k seconds).2

/-- `ttl(key)`: unavailable / error → -1. -/
def svcTtl (st : SvcState) (fT : Bool) (now : Nat) (s : Store) (k : String) : Int :=
  if !isAvailable st then -1
  else if fT then -1
  else redisTtl now s k

/-! ### JSON helpers — serialization model follows in the JSON section;
`svcGetJSON` / `svcSetJSON` are defined there, after the codec. -/

/-! ## JSON model

`JSON.stringify` / `JSON.parse` are runtime library functions, not repository
code; they are modelled concretely: an executable canonical serializer (the
stringify image: no insignificant whitespace, strings escaped with
backslash escapes, integer numbers) and an executable recursive-descent
parser accepting the standard JSON escapes.  Numbers are integer-valued. -/

/-- A JSON value (numbers restricted to integers). -/
inductive JVal where
  | null
  | bool (b : Bool)
  | num (n : Int)
  | str (s : String)
  | arr (elems : List JVal)
  | obj (fields : List (String × JVal))

def hexChar (n : Nat) : Char :=
  if n < 10 then digitChar n else Char.ofNat (87 + min n 15)

def hexVal (c : Char) : Nat :=
  if c.isDigit then c.toNat - 48
  else if 'a' ≤ c ∧ c ≤ 'f' then c.toNat - 87
  else if 'A' ≤ c ∧ c ≤ 'F' then c.toNat - 55
  else 0

def isHexDigitC (c : Char) : Bool :=
  c.isDigit || ('a' ≤ c && c ≤ 'f') || ('A' ≤ c && c ≤ 'F')

/-- Escape one character inside a JSON string literal. -/
def escChar (c : Char) : List Char :=
  if c = '"' then ['\\', '"']
  else if c = '\\' then ['\\', '\\']
  else if c.toNat < 32 then
    ['\\', 'u', '0', '0', hexChar (c.toNat / 16), hexChar (c.toNat % 16)]
  else [c]

def encStrChars (cs : List Char) : List Char :=
  cs.foldr (fun c acc => escChar c ++ acc) []

/-- Encoded JSON string literal including the quotes. -/
def encKey (s : String) : List Char := '"' :: encStrChars s.data ++ ['"']

mutual

def encVal : JVal → List Char
  | .null => "null".data
  | .bool true => "true".data
  | .bool false => "false".data
  | .num n => intChars n
  | .str s => '"' :: encStrChars s.data ++ ['"']
  | .arr es => '[' :: encElems es ++ [']']
  | .obj fs => '\x7b' :: encMembers fs ++ ['\x7d']

def encElems : List JVal → List Char
  | [] => []
  | [v] => encVal v
  | v :: vs => encVal v ++ ',' :: encElems vs

def encMembers : List (String × JVal) → List Char
  | [] => []
  | [(k, v)] => encKey k ++ ':' :: encVal v
  | (k, v) :: fs => encKey k ++ ':' :: encVal v ++ ',' :: encMembers fs

end

/-- Parse the body of a JSON string literal (after the opening quote),
returning the decoded characters and the input after the closing quote. -/
def parseStrBody : List Char → Option (List Char × List Char)
  | [] => none
  | c :: rest =>
    if c = '"' then some ([], rest)
    else if c = '\\' then
      match rest with
      | [] => none
      | e :: rest2 =>
        if e = '"' then (parseStrBody rest2).map (fun p => ('"' :: p.1, p.2))
        else if e = '\\' then (parseStrBody rest2).map (fun p => ('\\' :: p.1, p.2))
        else if e = '/' then (parseStrBody rest2).map (fun p => ('/' :: p.1, p.2))
        else if e = 'b' then (parseStrBody rest2).map (fun p => (Char.ofNat 8 :: p.1, p.2))
        else if e = 'f' then (parseStrBody rest2).map (fun p => (Char.ofNat 12 :: p.1, p.2))
        else if e = 'n' then (parseStrBody rest2).map (fun p => ('\n' :: p.1, p.2))
        else if e = 'r' then (parseStrBody rest2).map (fun p => ('\r' :: p.1, p.2))
        else if e = 't' then (parseStrBody rest2).map (fun p => ('\t' :: p.1, p.2))
        else if e = 'u' then
          match rest2 with
          | h1 :: h2 :: h3 :: h4 :: rest3 =>
            if isHexDigitC h1 && isHexDigitC h2 && isHexDigitC h3 && isHexDigitC h4 then
              (parseStrBody rest3).map (fun p =>
                (Char.ofNat (((hexVal h1 * 16 + hexVal h2) * 16 + hexVal h3) * 16 + hexVal h4)
                  :: p.1, p.2))
            else none
          | _ => none
        else none
    else (parseStrBody rest).map (fun p => (c :: p.1, p.2))

/-- Parse a run of decimal digits as a natural number. -/
def parseNatNum (cs : List Char) : Option (Nat × List Char) :=
  let ds := cs.takeWhile Char.isDigit
  if ds = [] then none else some (digitRunVal ds, cs.dropWhile Char.isDigit)

mutual

def parseVal : Nat → List Char → Option (JVal × List Char)
  | 0, _ => none
  | _ + 1, [] => none
  | f + 1, c :: cs =>
    if c = 'n' then
      match cs with
      | 'u' :: 'l' :: 'l' :: rest => some (.null, rest)
      | _ => none
    else if c = 't' then
      match cs with
      | 'r' :: 'u' :: 'e' :: rest => some (.bool true, rest)
      | _ => none
    else if c = 'f' then
      match cs with
      | 'a' :: 'l' :: 's' :: 'e' :: rest => some (.bool false, rest)
      | _ => none
    else if c = '"' then
      (parseStrBody cs).map (fun p => (.str (String.mk p.1), p.2))
    else if c = '[' then
      match cs with
      | [] => none
      | c2 :: cs2 =>
        if c2 = ']' then some (.arr [], cs2)
        else (parseElems f (c2 :: cs2)).map (fun p => (.arr p.1, p.2))
    else if c = '\x7b' then
      match cs with
      | [] => none
      | c2 :: cs2 =>
        if c2 = '\x7d' then some (.obj [], cs2)
        else (parseMembers f (c2 :: cs2)).map (fun p => (.obj p.1, p.2))
    else if c = '-' then
      (parseNatNum cs).map (fun p => (.num (-(p.1 : Int)), p.2))
    else if c.isDigit then
      (parseNatNum (c :: cs)).map (fun p => (.num (p.1 : Int), p.2))
    else none

def parseElems : Nat → List Char → Option (List JVal × List Char)
  | 0, _ => none
  | f + 1, cs =>
    match parseVal f cs with
    | none => none
    | some (v, rest) =>
      match rest with
      | [] => none
      | r :: rest2 =>
        if r = ',' then
          match parseElems f rest2 with
          | some (vs, rest3) => some (v :: vs, rest3)
          | none => none
        else if r = ']' then some ([v], rest2)
        else none

def parseMembers : Nat → List Char → Option (List (String × JVal) × List Char)
  | 0, _ => none
  | f + 1, cs =>
    match cs with
    | [] => none
    | q :: cs2 =>
      if q = '"' then
        match parseStrBody cs2 with
        | some (kcs, rest) =>
          (match rest with
          | [] => none
          | r :: rest2 =>
            if r = ':' then
              match parseVal f rest2 with
              | some (v, rest3) =>
                (match rest3 with
                | [] => none
                | e :: rest4 =>
                  if e = ',' then
                    (parseMembers f rest4).map (fun p => ((String.mk kcs, v) :: p.1, p.2))
                  else if e = '\x7d' then some ([(String.mk kcs, v)], rest4)
                  else none)
              | none => none
            else none)
        | none => none
      else none

end

mutual

/-- Parser fuel sufficient for a value (structural depth measure). -/
def fuelVal : JVal → Nat
  | .arr es => 1 + fuelElems es
  | .obj fs => 1 + fuelMembers fs
  | _ => 1

def fuelElems : List JVal → Nat
  | [] => 1
  | v :: vs => 1 + max (fuelVal v) (fuelElems vs)

def fuelMembers : List (String × JVal) → Nat
  | [] => 1
  | (_, v) :: fs => 1 + max (fuelVal v) (fuelMembers fs)

end

/-- `JSON.stringify` on the modelled values. -/
def JSONStringify (v : JVal) : String := String.mk (encVal v)

/-- `JSON.parse`: whole-input parse, `none` models a thrown `SyntaxError`. -/
def JSONParse (s : String) : Option JVal :=
  match parseVal (s.data.length + 1) s.data with
  | some (v, []) => some v
  | _ => none

/-- `getJSON(key)`: absent or falsy → `null`; parse failure → `null`. -/
def svcGetJSON (st : SvcState) (fGet : Bool) (now : Nat) (s : Store)
    (k : String) : Option JVal :=
  let value := (svcGet st fGet now s k).1
  if strTruthy value then
    match JSONParse (value.getD "") with
    | some v => some v
    | none => none
  else none

/-- `setJSON(key, value, ttl?)` = `set(key, JSON.stringify(value), ttl)`. -/
def svcSetJSON (st : SvcState) (fSet : Bool) (now : Nat) (s : Store)
    (k : String) (v : JVal) (ttl : Option Nat) : Store :=
  svcSet st fSet now s k (JSONStringify v) ttl

/-- Result of `deletePattern`, which wraps a `new Promise`:
`settled n s` — the promise resolved with `n`; `unsettled s` — the promise
never settles (the `await del` inside the `end` listener rejected, nothing
calls `resolve`, and the rejection escapes as an unhandled rejection). -/
inductive DPResult where
  | settled (count : Nat) (s : Store)
  | unsettled (s : Store)
deriving DecidableEq, Repr

/-- `deletePattern(pattern)`: scan the key space for matches, then one
batched `DEL`.  `fSetup` — `scanStream` construction threw (outer catch →
0); `fStream` — the scan stream emitted `error` (listener resolves 0);
`fDel` — the batched `DEL` rejected inside the `end` listener. -/
def svcDeletePattern (st : SvcState) (fSetup fStream fDel : Bool) (now : Nat)
    (s : Store) (pattern : String) : DPResult :=
  if !isAvailable st then .settled 0 s
  else if fSetup then .settled 0 s
  else if fStream then .settled 0 s
  else
    let keys := redisScanMatch now s pattern
    if keys.length > 0 then
      if fDel then .unsettled s
      else
        let (n, s1) := redisDel now s keys
        .settled n s1
    else .settled 0 s

/-- Result record of `checkRateLimit`. -/
structure RLResult where
  allowed : Bool
  remaining : Int
  resetAt : Nat
deriving DecidableEq, Repr

/-- JS `current >= limit` where `current` may be `NaN` (`none`). -/
def jsGE (cur : Option Int) (limit : Int) : Bool :=
  match cur with
  | none => false
  | some c => limit ≤ c

/-- `checkRateLimit(key, limit, windowSeconds)`: unavailable → allow with
`remaining = limit`; read the counter, reject at or above the limit without
writing, otherwise increment (TTL = window on creation) and report
`remaining = max(0, limit - newCount)`.  The outer catch is dead code in the
model because every inner service call already catches. -/
def svcCheckRateLimit (st : SvcState) (fGet fIncr fExpire : Bool) (now : Nat)
    (s : Store) (k : String) (limit : Int) (windowSeconds : Nat) : RLResult × Store :=
  if !isAvailable st then
    ({ allowed := true, remaining := limit, resetAt := now + windowSeconds * 1000 }, s)
  else
    let current := svcGetNumber st fGet now s k
    let resetAt := now + windowSeconds * 1000
    if jsGE current limit then
      ({ allowed := false, remaining := 0, resetAt }, s)
    else
      let (newCount, s1) := svcIncrement st fIncr fExpire now s k (some windowSeconds)
      ({ allowed := true, remaining := max 0 (limit - newCount), resetAt }, s1)

/-- Sequential fault-free `checkRateLimit` calls on one key and quota, one
per timestamp in the list, collecting the results. -/
def rlCalls (st : SvcState) (k : String) (limit : Int) (w : Nat) :
    List Nat → Store → List RLResult × Store
  | [], s => ([], s)
  | t :: ts, s =>
    let (r, s1) := svcCheckRateLimit st false false false t s k limit w
    let (rs, s2) := rlCalls st k limit w ts s1
    (r :: rs, s2)

/-- `invalidatePostCache(slug?)`: the direct-entry `del` is guarded by JS
truthiness (`if (slug)`), so an absent or empty slug skips it; then
`Promise.all` over two `deletePattern`s and two aggregate `del`s.  The
touched key sets are pairwise disjoint, so the concurrent join is modelled
as the sequential composition (no faults injected: the fault-free instance
the claims use). -/
def svcInvalidatePostCache (st : SvcState) (now : Nat) (s : Store)
    (slug : Option String) : Store :=
  let s1 := if strTruthy slug then svcDel st false now s ("post:" ++ slug.getD "")
    else s
  let s2 := match svcDeletePattern st false false false now s1 "posts:list:*" with
    | .settled _ s2 => s2
    | .unsettled s2 => s2
  let s3 := match svcDeletePattern st false false false now s2 "posts:page:*" with
    | .settled _ s3 => s3
    | .unsettled s3 => s3
  let s4 := svcDel st false now s3 "categories:all"
  svcDel st false now s4 "tags:all"

/-! ## The Request Gate

Two `RateLimitGuard` sources exist in the repository:
* `src/common/guards/rate-limit.guard.ts` — the guard the application
  registers (`app.module.ts` provides it as `APP_GUARD` by that path).
  With no `@RateLimit` metadata it returns `true` immediately.
* `src/unnamed/part_013` — a guard variant that instead applies a global
  fallback quota of 100 requests per 60 seconds when no metadata is set,
  and additionally honours `X-Forwarded-For` when resolving the caller.

Throwing the 429 `HttpException` is modelled as the `rejected` outcome; the
headers recorded in an outcome are exactly the `response.setHeader` calls
executed on that control path. -/

/-- The request fields the guards consult.  `userId` is `request.user?.id`
when present and truthy; `forwardedFor` is the `x-forwarded-for` header,
which may be a single string or an array of strings. -/
structure GateRequest where
  userId : Option String
  ip : Option String
  connectionRemoteAddress : Option String
  socketRemoteAddress : Option String
  forwardedFor : Option (Sum String (List String))
  method : String
  path : String
deriving DecidableEq, Repr

/-- JS string truthiness filter: `undefined`/`null` and `""` are falsy. -/
def jsStr : Option String → Option String
  | some s => if s = "" then none else some s
  | none => none

/-- `s.split(',')[0]`. -/
def firstCommaSeg (s : String) : String :=
  String.mk (s.data.takeWhile (fun c => c ≠ ','))

/-- `s.trim()`. -/
def trimStr (s : String) : String :=
  String.mk (((s.data.dropWhile Char.isWhitespace).reverse.dropWhile
    Char.isWhitespace).reverse)

/-- `getIdentifier` of the registered guard:
`user:${id}` else `request.ip || request.connection?.remoteAddress || 'unknown'`. -/
def getIdentifier (r : GateRequest) : String :=
  match r.userId with
  | some uid => "user:" ++ uid
  | none =>
    match jsStr r.ip with
    | some ip => ip
    | none =>
      match jsStr r.connectionRemoteAddress with
      | some a => a
      | none => "unknown"

/-- `getIdentifier` of the guard variant (`part_013`): prefers the first hop
of `x-forwarded-for`, then falls back to the connection / socket address. -/
def getIdentifierFwd (r : GateRequest) : String :=
  match r.userId with
  | some uid => "user:" ++ uid
  | none =>
    let ip0 : Option String :=
      match r.forwardedFor with
      | none => r.ip
      | some (.inl s) => if s = "" then r.ip else some (trimStr (firstCommaSeg s))
      | some (.inr l) => l.head?
    let ip1 : Option String :=
      if (jsStr ip0).isSome then ip0
      else
        match jsStr r.connectionRemoteAddress with
        | some a => some a
        | none => r.socketRemoteAddress
    (jsStr ip1).getD "unknown"

/-- Rendering of `new Date(ms).toISOString()`.  The claims depend only on
which headers are attached, never on this string's shape, so the timestamp
is rendered as its millisecond value. -/
def isoString (ms : Nat) : String := intStr ms

/-- A guard outcome: `allowed` (returns `true`) or `rejected` (throws the
429 `HttpException`); each records the headers set on that control path. -/
inductive GateOutcome where
  | allowed (headers : List (String × String))
  | rejected (headers : List (String × String)) (status : Nat) (retryAfter : Nat)
deriving DecidableEq, Repr

/-- Headers written on the control path that produced the outcome. -/
def GateOutcome.headers : GateOutcome → List (String × String)
  | .allowed hs => hs
  | .rejected hs _ _ => hs

/-- The three quota headers the guards write on an allowed response. -/
def quotaHeaders (limit : Int) (remaining : Int) (resetAt : Nat) :
    List (String × String) :=
  [("X-RateLimit-Limit", intStr limit),
   ("X-RateLimit-Remaining", intStr remaining),
   ("X-RateLimit-Reset", isoString resetAt)]

/-- `Math.ceil((resetAt - Date.now()) / 1000)` (`resetAt ≥ now` here). -/
def retryAfterOf (resetAt now : Nat) : Nat := (resetAt - now + 999) / 1000

/-- `canActivate` of the registered guard
(`src/common/guards/rate-limit.guard.ts`): without metadata it returns
`true` at once; with metadata it consults `checkRateLimit`, throws 429 when
not allowed, and sets the three quota headers when allowed. -/
def canActivate (meta : Option (Int × Nat)) (handlerName : String)
    (r : GateRequest) (st : SvcState) (fGet fIncr fExpire : Bool) (now : Nat)
    (s : Store) : GateOutcome × Store :=
  match meta with
  | none => (.allowed [], s)
  | some (limit, windowSeconds) =>
    let identifier := getIdentifier r
    let key := "rate_limit:" ++ handlerName ++ ":" ++ identifier
    let (result, s1) := svcCheckRateLimit st fGet fIncr fExpire now s key limit windowSeconds
    if !result.allowed then
      (.rejected [] 429 (retryAfterOf result.resetAt now), s1)
    else
      (.allowed (quotaHeaders limit result.remaining result.resetAt), s1)

/-- `canActivate` of the guard variant (`part_013`): identical for declared
quotas (modulo identifier resolution), but an undeclared route is checked
against a global fallback quota of 100 requests per 60 seconds under the
key `rate_limit:global:${method}:${path}:${identifier}`. -/
def canActivateFwd (meta : Option (Int × Nat)) (handlerName : String)
    (r : GateRequest) (st : SvcState) (fGet fIncr fExpire : Bool) (now : Nat)
    (s : Store) : GateOutcome × Store :=
  match meta with
  | none =>
    let defaultLimit : Int := 100
    let defaultWindow : Nat := 60
    let identifier := getIdentifierFwd r
    let key := "rate_limit:global:" ++ r.method ++ ":" ++ r.path ++ ":" ++ identifier
    let (result, s1) := svcCheckRateLimit st fGet fIncr fExpire now s key defaultLimit defaultWindow
    if !result.allowed then
      (.rejected [] 429 (retryAfterOf result.resetAt now), s1)
    else
      (.allowed (quotaHeaders defaultLimit result.remaining result.resetAt), s1)
  | some (limit, windowSeconds) =>
    let identifier := getIdentifierFwd r
    let key := "rate_limit:" ++ handlerName ++ ":" ++ identifier
    let (result, s1) := svcCheckRateLimit st fGet fIncr fExpire now s key limit windowSeconds
    if !result.allowed then
      (.rejected [] 429 (retryAfterOf result.resetAt now), s1)
    else
      (.allowed (quotaHeaders limit result.remaining result.resetAt), s1)

/-! ## Helper lemmas: decimal rendering and parsing -/

theorem data_mk (l : List Char) : (String.mk l).data = l := rfl

theorem isDigit_digitChar (d : Nat) : (digitChar d).isDigit = true := by
  match d with
  | 0 | 1 | 2 | 3 | 4 | 5 | 6 | 7 | 8 | n + 9 => rfl

theorem digitVal_digitChar {d : Nat} (h : d < 10) : digitVal (digitChar d) = d := by
  interval_cases d <;> rfl

theorem natCharsAux_eq (fuel : Nat) : ∀ n, n ≤ fuel →
    natCharsAux fuel n = ((Nat.digits 10 n).reverse).map digitChar := by
  induction fuel with
  | zero =>
    intro n hn
    have : n = 0 := by omega
    subst this
    simp [natCharsAux]
  | succ fuel ih =>
    intro n hn
    by_cases h0 : n = 0
    · subst h0; simp [natCharsAux]
    · have hda : n / 10 < n := Nat.div_lt_self (Nat.pos_of_ne_zero h0) (by norm_num)
      rw [show natCharsAux (fuel + 1) n
          = natCharsAux fuel (n / 10) ++ [digitChar (n % 10)] by
            simp [natCharsAux, h0]]
      rw [ih (n / 10) (by omega)]
      rw [Nat.digits_def' (by norm_num : (1 : ℕ) < 10) (Nat.pos_of_ne_zero h0)]
      simp

theorem natChars_eq (n : Nat) :
    natChars n = if n = 0 then ['0'] else ((Nat.digits 10 n).reverse).map digitChar := by
  unfold natChars
  by_cases h0 : n = 0
  · simp [h0]
  · simp [h0, natCharsAux_eq n n le_rfl]

theorem natChars_ne_nil (m : Nat) : natChars m ≠ [] := by
  rw [natChars_eq]
  split
  · simp
  · simp_all [Nat.digits_ne_nil_iff_ne_zero]

theorem natChars_all_digits (m : Nat) : ∀ c ∈ natChars m, c.isDigit = true := by
  rw [natChars_eq]
  split
  · simp
  · intro c hc
    simp only [List.mem_map] at hc
    obtain ⟨d, _, rfl⟩ := hc
    exact isDigit_digitChar d

theorem foldl_digitVal (ds : List Nat) (h : ∀ d ∈ ds, d < 10) (a : Nat) :
    List.foldl (fun x c => x * 10 + digitVal c) a (ds.map digitChar)
      = a * 10 ^ ds.length + Nat.ofDigits 10 ds.reverse := by
  induction ds generalizing a with
  | nil => simp [Nat.ofDigits]
  | cons d t ih =>
    simp only [List.map_cons, List.foldl_cons, List.length_cons, List.reverse_cons]
    rw [ih (fun x hx => h x (List.mem_cons_of_mem d hx)),
      digitVal_digitChar (h d (List.mem_cons_self d t)), Nat.ofDigits_append]
    simp [Nat.ofDigits, pow_succ]
    ring

theorem digitRunVal_natChars (m : Nat) : digitRunVal (natChars m) = m := by
  rw [natChars_eq]
  unfold digitRunVal
  split
  · simp_all [digitVal]
  · rw [foldl_digitVal]
    · simp [Nat.ofDigits_digits]
    · intro d hd
      rw [List.mem_reverse] at hd
      exact Nat.digits_lt_base (by norm_num) hd

/-- The continuation after a rendered number must not begin with a digit. -/
def headNotDigit (rest : List Char) : Prop :=
  ∀ c, rest.head? = some c → c.isDigit = false

theorem headNotDigit_nil : headNotDigit [] := by intro c hc; simp at hc

theorem takeWhile_append_all {p : Char → Bool} (l1 l2 : List Char)
    (h1 : ∀ c ∈ l1, p c = true) (h2 : ∀ c, l2.head? = some c → p c = false) :
    (l1 ++ l2).takeWhile p = l1 ∧ (l1 ++ l2).dropWhile p = l2 := by
  induction l1 with
  | nil =>
    simp only [List.nil_append]
    cases l2 with
    | nil => simp
    | cons c t => simp [List.takeWhile_cons, List.dropWhile_cons, h2 c rfl]
  | cons c t ih =>
    have hc : p c = true := h1 c (List.mem_cons_self c t)
    have ⟨iht, ihd⟩ := ih (fun x hx => h1 x (List.mem_cons_of_mem c hx))
    simp [List.takeWhile_cons, List.dropWhile_cons, hc, iht, ihd]

theorem digitPrefixVal_natChars (m : Nat) (rest : List Char) (hr : headNotDigit rest) :
    digitPrefixVal (natChars m ++ rest) = some m := by
  unfold digitPrefixVal
  have ⟨ht, _⟩ := takeWhile_append_all (natChars m) rest (natChars_all_digits m) hr
  rw [ht]
  simp [natChars_ne_nil m, digitRunVal_natChars]

theorem parseNatNum_natChars (m : Nat) (rest : List Char) (hr : headNotDigit rest) :
    parseNatNum (natChars m ++ rest) = some (m, rest) := by
  unfold parseNatNum
  have ⟨ht, hd⟩ := takeWhile_append_all (natChars m) rest (natChars_all_digits m) hr
  rw [ht, hd]
  simp [natChars_ne_nil m, digitRunVal_natChars]

theorem natChars_head_digit (m : Nat) :
    ∃ c t, natChars m = c :: t ∧ c.isDigit = true := by
  cases h : natChars m with
  | nil => exact absurd h (natChars_ne_nil m)
  | cons c t =>
    refine ⟨c, t, rfl, ?_⟩
    exact natChars_all_digits m c (h ▸ List.mem_cons_self c t)

theorem parseIntJS_intStr (n : Int) : parseIntJS (intStr n) = some n := by
  unfold parseIntJS intStr intChars
  split_ifs with hn
  · have hd : List.dropWhile (fun c => c = ' ') ('-' :: natChars n.natAbs)
        = '-' :: natChars n.natAbs := by
      simp [List.dropWhile_cons]
    simp only [data_mk, hd]
    rw [show (natChars n.natAbs) = natChars n.natAbs ++ [] by simp]
    simp only [digitPrefixVal_natChars n.natAbs [] headNotDigit_nil]
    simp
    rw [abs_of_neg hn, neg_neg]
  · obtain ⟨c, t, hct, hdig⟩ := natChars_head_digit n.toNat
    have hs : c ≠ ' ' := by intro h; rw [h] at hdig; exact absurd hdig (by decide)
    have hm : c ≠ '-' := by intro h; rw [h] at hdig; exact absurd hdig (by decide)
    have hp : c ≠ '+' := by intro h; rw [h] at hdig; exact absurd hdig (by decide)
    have hd : List.dropWhile (fun c => c = ' ') (natChars n.toNat) = natChars n.toNat := by
      rw [hct]; simp [List.dropWhile_cons, hs]
    simp only [data_mk]
    rw [hd, hct]
    simp [hm, hp]
    rw [← hct, show (natChars n.toNat) = natChars n.toNat ++ [] by simp,
      digitPrefixVal_natChars n.toNat [] headNotDigit_nil]
    simp
    omega

theorem redisParseInt_intStr (n : Int) : redisIncr.redisParseInt (intStr n) = some n := by
  unfold redisIncr.redisParseInt intStr intChars
  split_ifs with hn
  · have h1 := natChars_ne_nil n.natAbs
    have hall : (natChars n.natAbs).all Char.isDigit = true := by
      rw [List.all_eq_true]; exact natChars_all_digits n.natAbs
    simp only [data_mk]
    simp [h1, hall, digitRunVal_natChars]
    rw [abs_of_neg hn, neg_neg]
  · obtain ⟨c, t, hct, hdig⟩ := natChars_head_digit n.toNat
    have hm : c ≠ '-' := by intro h; rw [h] at hdig; exact absurd hdig (by decide)
    have hall : ((c :: t)).all Char.isDigit = true := by
      rw [List.all_eq_true, ← hct]; exact natChars_all_digits n.toNat
    simp only [data_mk]
    rw [hct]
    simp [hm, hall]
    rw [← hct, digitRunVal_natChars]
    omega

/-! ## Helper lemmas: the store -/

theorem find?_filter_ne (l : List (String × Entry)) (k k' : String) (h : k' ≠ k) :
    List.find? (fun p => p.1 == k') (l.filter (fun p => !(p.1 == k)))
      = List.find? (fun p => p.1 == k') l := by
  induction l with
  | nil => rfl
  | cons p t ih =>
    by_cases hp : p.1 = k'
    · have h1 : (p.1 == k') = true := by simp [hp]
      have h2 : (p.1 == k) = false := by simp [hp, h]
      simp [List.filter_cons, h2, List.find?, h1]
    · have h1 : (p.1 == k') = false := by simp [hp]
      by_cases hq : p.1 = k
      · have h2 : (p.1 == k) = true := by simp [hq]
        simp [List.filter_cons, h2, List.find?, h1, ih]
      · have h2 : (p.1 == k) = false := by simp [hq]
        simp [List.filter_cons, h2, List.find?, h1, ih]

theorem find_put_self (s : Store) (k : String) (e : Entry) :
    (s.put k e).find k = some e := by
  simp [Store.put, Store.find, List.find?]

theorem find_put_other (s : Store) (k k' : String) (e : Entry) (h : k' ≠ k) :
    (s.put k e).find k' = s.find k' := by
  have h1 : (k == k') = false := by
    rw [beq_eq_false_iff_ne]; exact Ne.symm h
  simp [Store.put, Store.find, List.find?, h1, find?_filter_ne s.data k k' h]

theorem find_remove_self (s : Store) (k : String) : (s.remove k).find k = none := by
  simp only [Store.remove, Store.find, Option.map_eq_none']
  rw [List.find?_eq_none]
  intro p hp
  rw [List.mem_filter] at hp
  simpa using hp.2

theorem find_remove_other (s : Store) (k k' : String) (h : k' ≠ k) :
    (s.remove k).find k' = s.find k' := by
  simp [Store.remove, Store.find, find?_filter_ne s.data k k' h]

theorem liveFind_put_self_live (s : Store) (k : String) (e : Entry) (now : Nat)
    (he : e.live now = true) : (s.put k e).liveFind now k = some e := by
  simp [Store.liveFind, find_put_self, he]

theorem liveFind_put_other (s : Store) (k k' : String) (e : Entry) (now : Nat)
    (h : k' ≠ k) : (s.put k e).liveFind now k' = s.liveFind now k' := by
  simp [Store.liveFind, find_put_other s k k' e h]

theorem liveFind_remove_self (s : Store) (k : String) (now : Nat) :
    (s.remove k).liveFind now k = none := by
  simp [Store.liveFind, find_remove_self]

theorem liveFind_remove_other (s : Store) (k k' : String) (now : Nat) (h : k' ≠ k) :
    (s.remove k).liveFind now k' = s.liveFind now k' := by
  simp [Store.liveFind, find_remove_other s k k' h]

theorem put_put (s : Store) (k : String) (e1 e2 : Entry) :
    (s.put k e1).put k e2 = s.put k e2 := by
  simp [Store.put, List.filter_cons, List.filter_filter]

/-! ## Helper lemmas: the rate limiter -/

theorem intChars_ne_nil (n : Int) : intChars n ≠ [] := by
  unfold intChars
  split_ifs
  · simp
  · exact natChars_ne_nil n.toNat

theorem intStr_ne_empty (n : Int) : intStr n ≠ "" := by
  intro h
  have hd : intChars n = [] := by
    have h2 := congrArg String.data h
    rwa [show (intStr n).data = intChars n from rfl,
      show String.data "" = [] from rfl] at h2
  exact intChars_ne_nil n hd

theorem parseIntJS_empty : parseIntJS "" = none := rfl

/-- `getNumber` on a live string counter that `parseInt` accepts. -/
theorem getNumber_counter (st : SvcState) (now : Nat) (s : Store) (k v : String)
    (e : Option Nat) (c : Int) (ha : isAvailable st = true)
    (hv : s.liveFind now k = some ⟨.str v, e⟩) (hc : parseIntJS v = some c) :
    svcGetNumber st false now s k = some c := by
  have hget : svcGet st false now s k = (some v, s) := by
    unfold svcGet redisGet
    rw [ha, hv]
    simp
  have hne : v ≠ "" := by
    intro h; rw [h, parseIntJS_empty] at hc; exact Option.noConfusion hc
  unfold svcGetNumber
  rw [hget]
  simp [strTruthy, hne, hc]

/-- `getNumber` on an absent (or expired) key is 0. -/
theorem getNumber_absent (st : SvcState) (now : Nat) (s : Store) (k : String)
    (ha : isAvailable st = true) (hv : s.liveFind now k = none) :
    svcGetNumber st false now s k = some 0 := by
  have hget : svcGet st false now s k = (none, s) := by
    unfold svcGet redisGet
    rw [ha, hv]
    simp
  unfold svcGetNumber
  rw [hget]
  simp [strTruthy]

/-- `increment` on an absent key with a truthy TTL: counter created at 1,
TTL applied. -/
theorem increment_absent (st : SvcState) (now : Nat) (s : Store) (k : String)
    (ttl : Option Nat) (ha : isAvailable st = true)
    (hv : s.liveFind now k = none) (ht : ttlTruthy ttl = true) :
    svcIncrement st false false now s k ttl
      = (1, s.put k ⟨.str (intStr 1), some (now + (ttl.getD 0) * 1000)⟩) := by
  unfold svcIncrement
  rw [ha]
  have hincr : redisIncr now s k = .ok (1, s.put k ⟨.str (intStr 1), none⟩) := by
    unfold redisIncr; rw [hv]
  rw [hincr]
  simp only [ht, Bool.true_and, beq_self_eq_true, if_true, Bool.false_eq_true,
    if_false]
  unfold redisExpire
  rw [liveFind_put_self_live s k ⟨.str (intStr 1), none⟩ now (by simp [Entry.live])]
  simp [put_put]

/-- `increment` of an existing live counter whose new value is not 1:
value bumped, expiry field preserved verbatim, no `EXPIRE` issued. -/
theorem increment_existing (st : SvcState) (now : Nat) (s : Store) (k v : String)
    (e : Option Nat) (nn : Int) (ttl : Option Nat) (ha : isAvailable st = true)
    (hv : s.liveFind now k = some ⟨.str v, e⟩)
    (hp : redisIncr.redisParseInt v = some nn) (hne : nn + 1 ≠ 1) :
    svcIncrement st false false now s k ttl
      = (nn + 1, s.put k ⟨.str (intStr (nn + 1)), e⟩) := by
  unfold svcIncrement
  rw [ha]
  have hincr : redisIncr now s k = .ok (nn + 1, s.put k ⟨.str (intStr (nn + 1)), e⟩) := by
    unfold redisIncr; rw [hv]; simp [hp]
  rw [hincr]
  have : ((nn + 1 : Int) == 1) = false := by simp [hne]
  simp [this]

/-- `increment` of an existing live counter holding 0 with a truthy TTL:
the result is 1, so the TTL is (re)applied to the pre-existing counter. -/
theorem increment_zero (st : SvcState) (now : Nat) (s : Store) (k v : String)
    (e : Option Nat) (ttl : Option Nat) (ha : isAvailable st = true)
    (hv : s.liveFind now k = some ⟨.str v, e⟩)
    (hp : redisIncr.redisParseInt v = some 0) (he : Entry.live now ⟨.str v, e⟩ = true)
    (ht : ttlTruthy ttl = true) :
    svcIncrement st false false now s k ttl
      = (1, s.put k ⟨.str (intStr 1), some (now + (ttl.getD 0) * 1000)⟩) := by
  unfold svcIncrement
  rw [ha]
  have hincr : redisIncr now s k = .ok (0 + 1, s.put k ⟨.str (intStr (0 + 1)), e⟩) := by
    unfold redisIncr; rw [hv]; simp [hp]
  rw [hincr]
  have hlive : Entry.live now ⟨.str (intStr (0 + 1)), e⟩ = true := by
    simpa [Entry.live] using he
  simp only [ht, Bool.true_and, show ((0 : Int) + 1 == 1) = true by decide, if_true,
    Bool.false_eq_true, if_false]
  unfold redisExpire
  rw [liveFind_put_self_live _ k _ now hlive]
  norm_num [put_put]

/-- `checkRateLimit` with the counter at or above the limit: rejected,
remaining 0, and the store is returned untouched (no write of any kind). -/
theorem checkRateLimit_atLimit (st : SvcState) (now : Nat) (s : Store)
    (k v : String) (e : Option Nat) (limit c : Int) (w : Nat)
    (ha : isAvailable st = true) (hv : s.liveFind now k = some ⟨.str v, e⟩)
    (hc : parseIntJS v = some c) (hl : limit ≤ c) :
    svcCheckRateLimit st false false false now s k limit w
      = ({ allowed := false, remaining := 0, resetAt := now + w * 1000 }, s) := by
  unfold svcCheckRateLimit
  rw [ha]
  rw [getNumber_counter st now s k v e c ha hv hc]
  simp [jsGE, hl]

/-- `checkRateLimit` on a fresh (absent) counter under a positive limit:
allowed, counter created at 1 with the window as TTL. -/
theorem checkRateLimit_fresh (st : SvcState) (now : Nat) (s : Store)
    (k : String) (limit : Int) (w : Nat) (ha : isAvailable st = true)
    (hv : s.liveFind now k = none) (hl : 0 < limit) (hw : w ≠ 0) :
    svcCheckRateLimit st false false false now s k limit w
      = ({ allowed := true, remaining := max 0 (limit - 1), resetAt := now + w * 1000 },
         s.put k ⟨.str (intStr 1), some (now + w * 1000)⟩) := by
  unfold svcCheckRateLimit
  rw [ha]
  rw [getNumber_absent st now s k ha hv]
  have hge : jsGE (some 0) limit = false := by simp [jsGE]; omega
  rw [increment_absent st now s k (some w) ha hv (by simp [ttlTruthy, hw])]
  simp [hge]

/-- `checkRateLimit` on a live counter `i ≥ 1` strictly under the limit:
allowed, counter bumped to `i+1`, expiry preserved, no `EXPIRE` issued. -/
theorem checkRateLimit_step (st : SvcState) (now : Nat) (s : Store)
    (k : String) (limit : Int) (w : Nat) (i : Nat) (e : Option Nat)
    (ha : isAvailable st = true)
    (hv : s.liveFind now k = some ⟨.str (intStr (i : Int)), e⟩)
    (hi : 1 ≤ i) (hlim : (i : Int) < limit) :
    svcCheckRateLimit st false false false now s k limit w
      = ({ allowed := true, remaining := max 0 (limit - ((i : Int) + 1)),
           resetAt := now + w * 1000 },
         s.put k ⟨.str (intStr ((i : Int) + 1)), e⟩) := by
  unfold svcCheckRateLimit
  rw [ha]
  rw [getNumber_counter st now s k (intStr (i : Int)) e (i : Int) ha hv
    (parseIntJS_intStr (i : Int))]
  have hge : jsGE (some (i : Int)) limit = false := by simp [jsGE]; omega
  rw [increment_existing st now s k (intStr (i : Int)) e (i : Int) (some w) ha hv
    (redisParseInt_intStr (i : Int)) (by omega)]
  simp [hge]

/-- A counter written with expiry `E` is live at any `t < E`. -/
theorem liveFind_counter (s0 : Store) (k : String) (t E : Nat) (v : Int)
    (ht : t < E) :
    (s0.put k ⟨.str (intStr v), some E⟩).liveFind t k
      = some ⟨.str (intStr v), some E⟩ := by
  apply liveFind_put_self_live
  simpa [Entry.live] using ht

/-- Tail of a rate-limit burst: from a live counter `i ≥ 1` with expiry `E`,
the next `L - i` calls (one per timestamp, all before `E`) are allowed,
bumping the counter each time, and the following call is rejected, leaving
the counter at `L`. -/
theorem rl_tail (st : SvcState) (k : String) (L w : Nat) (E : Nat)
    (ha : isAvailable st = true) (s0 : Store) :
    ∀ (ta : List Nat) (tr : Nat) (i : Nat), 1 ≤ i → i + ta.length = L →
    (∀ t ∈ ta ++ [tr], t < E) →
    rlCalls st k (L : Int) w (ta ++ [tr])
        (s0.put k ⟨.str (intStr (i : Int)), some E⟩)
      = ((List.mapIdx (fun j t =>
            { allowed := true, remaining := max 0 ((L : Int) - ((i + j + 1 : Nat) : Int)),
              resetAt := t + w * 1000 }) ta)
          ++ [{ allowed := false, remaining := 0, resetAt := tr + w * 1000 }],
         s0.put k ⟨.str (intStr (L : Int)), some E⟩) := by
  intro ta
  induction ta generalizing s0 with
  | nil =>
    intro tr i hi hiL hwin
    have hiL2 : i = L := by simpa using hiL
    subst hiL2
    have htr : tr < E := hwin tr (by simp)
    simp only [List.nil_append]
    unfold rlCalls
    rw [checkRateLimit_atLimit st tr _ k (intStr (i : Int)) (some E)
      (i : Int) (i : Int) w ha (liveFind_counter s0 k tr E (i : Int) htr)
      (parseIntJS_intStr (i : Int)) le_rfl]
    unfold rlCalls
    simp
  | cons t ta ih =>
    intro tr i hi hiL hwin
    have ht : t < E := hwin t (by simp)
    simp only [List.cons_append]
    unfold rlCalls
    rw [checkRateLimit_step st t _ k (L : Int) w i (some E) ha
      (liveFind_counter s0 k t E (i : Int) ht) hi
      (by simp at hiL; omega)]
    rw [put_put]
    rw [show ((i : Int) + 1) = ((i + 1 : Nat) : Int) by push_cast; ring]
    dsimp only
    rw [ih s0 tr (i + 1) (by omega) (by simp at hiL ⊢; omega)
      (fun x hx => hwin x (by simp at hx ⊢; tauto))]
    rw [List.mapIdx_cons]
    rw [Prod.mk.injEq]
    refine ⟨?_, rfl⟩
    rw [List.cons_append, List.cons.injEq]
    refine ⟨by norm_num, ?_⟩
    refine congrArg (fun l => l ++ _) ?_
    have hfe : (fun (j : Nat) (x : Nat) =>
        ({ allowed := true, remaining := max 0 ((L : Int) - ((i + 1 + j + 1 : Nat) : Int)),
           resetAt := x + w * 1000 } : RLResult))
        = (fun (j : Nat) (x : Nat) =>
        ({ allowed := true, remaining := max 0 ((L : Int) - ((i + (j + 1) + 1 : Nat) : Int)),
           resetAt := x + w * 1000 } : RLResult)) := by
      funext j x
      have harith : i + 1 + j + 1 = i + (j + 1) + 1 := by omega
      rw [harith]
    rw [hfe]

theorem liveFind_some_live (now : Nat) (s : Store) (k : String) (e : Entry)
    (h : s.liveFind now k = some e) : e.live now = true := by
  unfold Store.liveFind at h
  cases hf : s.find k with
  | none => rw [hf] at h; exact Option.noConfusion h
  | some e' =>
    rw [hf] at h
    dsimp only at h
    split_ifs at h with hl
    · cases h; exact hl

/-! ## Helper lemmas: deletion, scanning and invalidation -/

theorem redisDel_snd (now : Nat) (ks : List String) : ∀ (a : Nat) (s : Store),
    (ks.foldl
      (fun acc k =>
        match acc.2.liveFind now k with
        | some _ => (acc.1 + 1, acc.2.remove k)
        | none => (acc.1, acc.2.remove k)) (a, s)).2
      = ks.foldl (fun s k => s.remove k) s := by
  induction ks with
  | nil => intro a s; rfl
  | cons k t ih =>
    intro a s
    simp only [List.foldl_cons]
    cases h : s.liveFind now k <;> simp [h, ih]

theorem find_foldl_remove (ks : List String) : ∀ (s : Store) (k : String),
    (ks.foldl (fun s k => s.remove k) s).find k
      = if k ∈ ks then none else s.find k := by
  induction ks with
  | nil => intro s k; simp
  | cons k0 t ih =>
    intro s k
    simp only [List.foldl_cons, ih]
    by_cases hk : k = k0
    · subst hk
      simp [find_remove_self]
    · simp [List.mem_cons, hk, find_remove_other s k0 k hk]

theorem liveFind_none_foldl_remove (now : Nat) (ks : List String) (s : Store)
    (k : String) (h : s.liveFind now k = none) :
    (ks.foldl (fun s k => s.remove k) s).liveFind now k = none := by
  unfold Store.liveFind at h ⊢
  rw [find_foldl_remove]
  split_ifs with hk
  · rfl
  · exact h

theorem redisDel_count (now : Nat) (ks : List String) : ∀ (a : Nat) (s : Store),
    ks.Nodup → (∀ k ∈ ks, s.liveFind now k ≠ none) →
    (ks.foldl
      (fun acc k =>
        match acc.2.liveFind now k with
        | some _ => (acc.1 + 1, acc.2.remove k)
        | none => (acc.1, acc.2.remove k)) (a, s)).1
      = a + ks.length := by
  induction ks with
  | nil => intro a s _ _; rfl
  | cons k t ih =>
    intro a s hnd hl
    simp only [List.foldl_cons]
    obtain ⟨e, he⟩ : ∃ e, s.liveFind now k = some e := by
      cases h : s.liveFind now k with
      | none => exact absurd h (hl k (List.mem_cons_self k t))
      | some e => exact ⟨e, rfl⟩
    rw [he]
    have hnd' := (List.nodup_cons.mp hnd)
    have hstep : ∀ k' ∈ t, (s.remove k).liveFind now k' ≠ none := by
      intro k' hk'
      have hne : k' ≠ k := fun hh => hnd'.1 (hh ▸ hk')
      rw [liveFind_remove_other s k k' now hne]
      exact hl k' (List.mem_cons_of_mem k hk')
    rw [ih (a + 1) (s.remove k) hnd'.2 hstep]
    simp [List.length_cons]
    omega

theorem mem_of_find (s : Store) (k : String) (e : Entry)
    (h : s.find k = some e) : (k, e) ∈ s.data := by
  unfold Store.find at h
  cases hf : s.data.find? (fun p => p.1 == k) with
  | none => rw [hf] at h; exact Option.noConfusion h
  | some q =>
    rw [hf] at h
    simp only [Option.map_some'] at h
    have hq := @List.find?_some _ (fun p => p.1 == k) q s.data hf
    have hmm := List.mem_of_find?_eq_some hf
    obtain ⟨a, b⟩ := q
    have hqk : a = k := by simpa using hq
    have hbe : b = e := by simpa using h
    subst hqk
    subst hbe
    exact hmm

/-- Every live matching key is reported by the scan. -/
theorem mem_scan_of_live (now : Nat) (s : Store) (pat k : String) (e : Entry)
    (hf : s.find k = some e) (hl : e.live now = true)
    (hm : keyMatches pat k = true) : k ∈ redisScanMatch now s pat := by
  unfold redisScanMatch
  rw [List.mem_map]
  refine ⟨(k, e), List.mem_filter.mpr ⟨mem_of_find s k e hf, ?_⟩, rfl⟩
  simp [hl, hm]

/-- Scan results match the pattern. -/
theorem scan_matches (now : Nat) (s : Store) (pat k : String)
    (h : k ∈ redisScanMatch now s pat) : keyMatches pat k = true := by
  unfold redisScanMatch at h
  rw [List.mem_map] at h
  obtain ⟨p, hp, rfl⟩ := h
  have hcond := (List.mem_filter.mp hp).2
  simp only [Bool.and_eq_true] at hcond
  exact hcond.2

theorem find?_of_mem_nodup (l : List (String × Entry)) (p : String × Entry)
    (hnd : (l.map (·.1)).Nodup) (hmem : p ∈ l) :
    l.find? (fun q => q.1 == p.1) = some p := by
  induction l with
  | nil => simp at hmem
  | cons q t ih =>
    rcases List.mem_cons.mp hmem with hq | ht
    · subst hq
      simp [List.find?]
    · rw [List.map_cons] at hnd
      have hnd' := List.nodup_cons.mp hnd
      have hne : q.1 ≠ p.1 := by
        intro hh
        have hmm : p.1 ∈ t.map (·.1) := List.mem_map.mpr ⟨p, ht, rfl⟩
        rw [← hh] at hmm
        exact hnd'.1 hmm
      have hq1 : (q.1 == p.1) = false := by simpa using hne
      simp only [List.find?, hq1]
      exact ih hnd'.2 ht

/-- The raw lookup recovers any binding of a well-formed store. -/
theorem find_of_mem_wf (s : Store) (p : String × Entry) (hwf : s.WF)
    (hmem : p ∈ s.data) : s.find p.1 = some p.2 := by
  unfold Store.find
  rw [find?_of_mem_nodup s.data p hwf hmem]
  rfl

/-- Scan results are live keys (well-formed store). -/
theorem scan_live (now : Nat) (s : Store) (pat k : String) (hwf : s.WF)
    (h : k ∈ redisScanMatch now s pat) : s.liveFind now k ≠ none := by
  unfold redisScanMatch at h
  rw [List.mem_map] at h
  obtain ⟨p, hp, rfl⟩ := h
  have hmem := (List.mem_filter.mp hp).1
  have hcond := (List.mem_filter.mp hp).2
  simp only [Bool.and_eq_true] at hcond
  have hlive : p.2.live now = true := hcond.1
  have hfind := find_of_mem_wf s p hwf hmem
  unfold Store.liveFind
  rw [hfind]
  simp [hlive]

theorem scan_nodup (now : Nat) (s : Store) (pat : String) (hwf : s.WF) :
    (redisScanMatch now s pat).Nodup := by
  unfold redisScanMatch
  have hsub : List.Sublist
      ((s.data.filter (fun p => p.2.live now && keyMatches pat p.1)).map (·.1))
      (s.data.map (·.1)) := (List.filter_sublist _).map _
  exact hwf.sublist hsub

/-- A key vanishing from a scan-then-delete pass: every matching key is
absent (as the store presents it) afterwards. -/
theorem scan_fold_clears (now : Nat) (s : Store) (pat k : String)
    (hm : keyMatches pat k = true) :
    ((redisScanMatch now s pat).foldl (fun s k => s.remove k) s).liveFind now k
      = none := by
  cases hl : s.liveFind now k with
  | none => exact liveFind_none_foldl_remove now _ s k hl
  | some e =>
    have hlive := liveFind_some_live now s k e hl
    have hfind : s.find k = some e := by
      unfold Store.liveFind at hl
      cases hf : s.find k with
      | none => rw [hf] at hl; exact Option.noConfusion hl
      | some e' =>
        rw [hf] at hl
        dsimp only at hl
        split_ifs at hl
        · cases hl; rfl
    have hk : k ∈ redisScanMatch now s pat := mem_scan_of_live now s pat k e hfind hlive hm
    unfold Store.liveFind
    rw [find_foldl_remove]
    simp [hk]

theorem WF_remove (s : Store) (k : String) (hwf : s.WF) : (s.remove k).WF := by
  unfold Store.WF Store.remove at *
  exact hwf.sublist ((List.filter_sublist _).map _)

theorem WF_foldl_remove (ks : List String) : ∀ (s : Store), s.WF →
    (ks.foldl (fun s k => s.remove k) s).WF := by
  induction ks with
  | nil => intro s h; exact h
  | cons k t ih => intro s h; exact ih (s.remove k) (WF_remove s k h)

/-- `deletePattern` under availability and no faults resolves; its store is
the scan-then-batch-delete result and its count the scan length. -/
theorem svcDeletePattern_ok (st : SvcState) (now : Nat) (s : Store) (pat : String)
    (ha : isAvailable st = true) :
    svcDeletePattern st false false false now s pat
      = .settled
          (if (redisScanMatch now s pat).length > 0
            then (redisDel now s (redisScanMatch now s pat)).1 else 0)
          ((redisScanMatch now s pat).foldl (fun s k => s.remove k) s) := by
  unfold svcDeletePattern
  rw [ha]
  simp only [Bool.not_true, Bool.false_eq_true, if_false]
  by_cases h0 : (redisScanMatch now s pat).length > 0
  · simp only [h0, if_true]
    unfold redisDel
    rw [redisDel_snd now (redisScanMatch now s pat) 0 s]
  · simp only [h0, if_false]
    have : redisScanMatch now s pat = [] := by
      cases h : redisScanMatch now s pat with
      | nil => rfl
      | cons a t => rw [h] at h0; simp at h0
    rw [this]
    rfl

theorem svcDel_avail (st : SvcState) (now : Nat) (s : Store) (k : String)
    (ha : isAvailable st = true) : svcDel st false now s k = s.remove k := by
  unfold svcDel
  rw [ha]
  simp only [Bool.not_true, Bool.false_eq_true, if_false]
  unfold redisDel
  rw [redisDel_snd now [k] 0 s]
  rfl

/-! ## Claims -/

/-- C1: starting from an absent counter, `L` sequential fault-free calls to
`checkRateLimit(key, L, w)` at timestamps inside one window are all allowed,
the i-th returning `remaining = max(0, L - i)` after incrementing the
counter to `i`, and the `(L+1)`-th call is rejected with `remaining = 0`,
leaving the counter at `L` with the window TTL set by the first call. -/
theorem C1_rate_limit_burst (st : SvcState) (k : String) (L w : Nat)
    (t0 : Nat) (ta : List Nat) (tr : Nat) (s : Store)
    (ha : isAvailable st = true) (hL : 0 < L) (hw : 0 < w)
    (hlen : (t0 :: ta).length = L)
    (hwin : ∀ t ∈ ta ++ [tr], t < t0 + w * 1000)
    (habs : s.liveFind t0 k = none) :
    rlCalls st k (L : Int) w ((t0 :: ta) ++ [tr]) s
      = ((List.mapIdx (fun i t =>
            { allowed := true, remaining := max 0 ((L : Int) - ((i + 1 : Nat) : Int)),
              resetAt := t + w * 1000 }) (t0 :: ta))
          ++ [{ allowed := false, remaining := 0, resetAt := tr + w * 1000 }],
         s.put k ⟨.str (intStr (L : Int)), some (t0 + w * 1000)⟩) := by
  simp only [List.cons_append]
  unfold rlCalls
  rw [checkRateLimit_fresh st t0 s k ((L : Nat) : Int) w ha habs
    (by omega) (by omega)]
  dsimp only
  have htail := rl_tail st k L w (t0 + w * 1000) ha s ta tr 1 le_rfl
    (by simp at hlen; omega) hwin
  rw [Nat.cast_one] at htail
  rw [htail]
  rw [List.mapIdx_cons]
  rw [Prod.mk.injEq]
  refine ⟨?_, rfl⟩
  rw [List.cons_append, List.cons.injEq]
  refine ⟨by norm_num, ?_⟩
  refine congrArg (fun l => l ++ _) ?_
  have hfe : (fun (j : Nat) (x : Nat) =>
      ({ allowed := true, remaining := max 0 ((L : Int) - ((j + 1 + 1 : Nat) : Int)),
         resetAt := x + w * 1000 } : RLResult))
      = (fun (j : Nat) (x : Nat) =>
      ({ allowed := true, remaining := max 0 ((L : Int) - ((1 + j + 1 : Nat) : Int)),
         resetAt := x + w * 1000 } : RLResult)) := by
    funext j x
    have harith : j + 1 + 1 = 1 + j + 1 := by omega
    rw [harith]
  rw [hfe]

/-- C1 witness: limit 2, window 60 s, calls at 0 s, 10 s and 30 s — two
allowed calls (remaining 1 then 0), then a rejected one; the counter ends
at `"2"` with the TTL fixed by the first call. -/
theorem C1_rate_limit_burst_witness :
    isAvailable ⟨true, true⟩ = true ∧ 0 < 2 ∧ 0 < 60 ∧
    rlCalls ⟨true, true⟩ "k" 2 60 [0, 10000, 30000] ⟨[]⟩
      = ([{ allowed := true, remaining := 1, resetAt := 60000 },
          { allowed := true, remaining := 0, resetAt := 70000 },
          { allowed := false, remaining := 0, resetAt := 90000 }],
         Store.put ⟨[]⟩ "k" ⟨.str "2", some 60000⟩) :=
  ⟨rfl, by norm_num, by norm_num,
    C1_rate_limit_burst ⟨true, true⟩ "k" 2 60 0 [10000] 30000 ⟨[]⟩ rfl
      (by norm_num) (by norm_num) rfl (by decide) rfl⟩

/-- C10: when the counter already stands at or above the limit, a fault-free
`checkRateLimit` call rejects the request (`allowed = false`,
`remaining = 0`) and returns the store exactly as it was: no increment, no
TTL refresh, no write of any kind. -/
theorem C10_reject_performs_no_write (st : SvcState) (now : Nat) (s : Store)
    (k v : String) (e : Option Nat) (limit c : Int) (w : Nat)
    (ha : isAvailable st = true) (hv : s.liveFind now k = some ⟨.str v, e⟩)
    (hc : parseIntJS v = some c) (hl : limit ≤ c) :
    svcCheckRateLimit st false false false now s k limit w
      = ({ allowed := false, remaining := 0, resetAt := now + w * 1000 }, s) :=
  checkRateLimit_atLimit st now s k v e limit c w ha hv hc hl

/-- C10 witness: a counter at 5 with 3 s of TTL left, limit 5 — rejected and
the store (value and expiry included) is returned untouched. -/
theorem C10_reject_performs_no_write_witness :
    isAvailable ⟨true, true⟩ = true ∧
    Store.liveFind 0 ⟨[("k", ⟨.str "5", some 3000⟩)]⟩ "k" = some ⟨.str "5", some 3000⟩ ∧
    parseIntJS "5" = some 5 ∧ (5 : Int) ≤ 5 ∧
    svcCheckRateLimit ⟨true, true⟩ false false false 0 ⟨[("k", ⟨.str "5", some 3000⟩)]⟩
        "k" 5 60
      = ({ allowed := false, remaining := 0, resetAt := 60000 },
         (⟨[("k", ⟨.str "5", some 3000⟩)]⟩ : Store)) :=
  ⟨rfl, rfl, rfl, by norm_num,
    C10_reject_performs_no_write ⟨true, true⟩ 0 ⟨[("k", ⟨.str "5", some 3000⟩)]⟩
      "k" "5" (some 3000) 5 5 60 rfl rfl rfl le_rfl⟩

/-- C3: whenever `isAvailable()` is false (degraded or disabled), `get`
returns absent, `set` is a no-op on the store, and `checkRateLimit` allows
with `remaining = limit`, regardless of the store contents and of any fault
flags. -/
theorem C3_unavailable_fails_open (st : SvcState) (h : isAvailable st = false) :
    ∀ (fG fS fC1 fC2 fC3 : Bool) (now : Nat) (s : Store) (k v : String)
      (ttl : Option Nat) (limit : Int) (w : Nat),
      svcGet st fG now s k = (none, s) ∧
      svcSet st fS now s k v ttl = s ∧
      svcCheckRateLimit st fC1 fC2 fC3 now s k limit w
        = ({ allowed := true, remaining := limit, resetAt := now + w * 1000 }, s) := by
  intro fG fS fC1 fC2 fC3 now s k v ttl limit w
  refine ⟨?_, ?_, ?_⟩
  · unfold svcGet; rw [h]; simp
  · unfold svcSet; rw [h]; simp
  · unfold svcCheckRateLimit; rw [h]; simp

/-- C3 witness: degraded state (client present, connection down), counter
far above the limit — `get` misses, `set` is a no-op, the gate allows with
`remaining = limit`. -/
theorem C3_unavailable_fails_open_witness :
    isAvailable ⟨true, false⟩ = false ∧
    (svcGet ⟨true, false⟩ false 0 ⟨[("k", ⟨.str "99", none⟩)]⟩ "k"
        = (none, (⟨[("k", ⟨.str "99", none⟩)]⟩ : Store)) ∧
      svcSet ⟨true, false⟩ false 0 ⟨[("k", ⟨.str "99", none⟩)]⟩ "k" "v" (some 60)
        = (⟨[("k", ⟨.str "99", none⟩)]⟩ : Store) ∧
      svcCheckRateLimit ⟨true, false⟩ false false false 0
          ⟨[("k", ⟨.str "99", none⟩)]⟩ "k" 5 60
        = ({ allowed := true, remaining := 5, resetAt := 60000 },
           (⟨[("k", ⟨.str "99", none⟩)]⟩ : Store))) :=
  ⟨rfl, C3_unavailable_fails_open ⟨true, false⟩ rfl false false false false false 0
    ⟨[("k", ⟨.str "99", none⟩)]⟩ "k" "v" (some 60) 5 60⟩

/-- C2 counterexample: a live counter holding `"0"` (reachable through
`decrement` then `increment`) exists before the call, yet
`increment(k, 5)` yields 1 and therefore applies the 5-second TTL to this
pre-existing counter — "subsequent increments of an existing counter never
set or refresh the TTL" fails. -/
theorem C2_ttl_counterexample :
    Store.liveFind 0 ⟨[("k", ⟨.str "0", none⟩)]⟩ "k" = some ⟨.str "0", none⟩ ∧
    (svcIncrement ⟨true, true⟩ false false 0 ⟨[("k", ⟨.str "0", none⟩)]⟩ "k"
        (some 5)).2.find "k" = some ⟨.str "1", some 5000⟩ :=
  ⟨rfl, rfl⟩

/-- C2 amended: `increment(key, t)` applies its TTL exactly when the
incremented value equals 1 (and `t` is truthy): it sets the TTL on the
creation transition (absent key), leaves the stored expiry untouched on any
increment yielding a value other than 1, and — the one divergence from the
claim — also refreshes the TTL when an existing live counter holding 0 is
incremented to 1. -/
theorem C2_ttl_only_on_one (st : SvcState) (now : Nat) (s : Store) (k : String)
    (ttl : Option Nat) (ha : isAvailable st = true) :
    (s.liveFind now k = none → ttlTruthy ttl = true →
      svcIncrement st false false now s k ttl
        = (1, s.put k ⟨.str (intStr 1), some (now + (ttl.getD 0) * 1000)⟩)) ∧
    (∀ v e nn, s.liveFind now k = some ⟨.str v, e⟩ →
      redisIncr.redisParseInt v = some nn → nn + 1 ≠ 1 →
      svcIncrement st false false now s k ttl
        = (nn + 1, s.put k ⟨.str (intStr (nn + 1)), e⟩)) ∧
    (∀ v e, s.liveFind now k = some ⟨.str v, e⟩ →
      redisIncr.redisParseInt v = some 0 → ttlTruthy ttl = true →
      svcIncrement st false false now s k ttl
        = (1, s.put k ⟨.str (intStr 1), some (now + (ttl.getD 0) * 1000)⟩)) := by
  refine ⟨?_, ?_, ?_⟩
  · intro habs ht
    exact increment_absent st now s k ttl ha habs ht
  · intro v e nn hv hp hne
    exact increment_existing st now s k v e nn ttl ha hv hp hne
  · intro v e hv hp ht
    have he := liveFind_some_live now s k ⟨.str v, e⟩ hv
    have h := increment_zero st now s k v e ttl ha hv hp he ht
    norm_num at h
    exact h

/-- C2 amended witness: creating `"k"` sets the TTL; incrementing the
resulting live counter `"1"` to 2 keeps its expiry unchanged. -/
theorem C2_ttl_only_on_one_witness :
    svcIncrement ⟨true, true⟩ false false 0 ⟨[]⟩ "k" (some 5)
      = (1, Store.put ⟨[]⟩ "k" ⟨.str "1", some 5000⟩) ∧
    svcIncrement ⟨true, true⟩ false false 0 ⟨[("k", ⟨.str "1", some 5000⟩)]⟩ "k"
        (some 5)
      = (2, Store.put ⟨[("k", ⟨.str "1", some 5000⟩)]⟩ "k" ⟨.str "2", some 5000⟩) :=
  ⟨(C2_ttl_only_on_one ⟨true, true⟩ 0 ⟨[]⟩ "k" (some 5) rfl).1 rfl rfl,
   (C2_ttl_only_on_one ⟨true, true⟩ 0 ⟨[("k", ⟨.str "1", some 5000⟩)]⟩ "k"
      (some 5) rfl).2.1 "1" (some 5000) 1 rfl rfl (by norm_num)⟩

theorem liveFind_none_remove (now : Nat) (s : Store) (k k' : String)
    (h : s.liveFind now k = none) : (s.remove k').liveFind now k = none := by
  by_cases hk : k = k'
  · subst hk; exact liveFind_remove_self s k now
  · rw [liveFind_remove_other s k' k now hk]; exact h

/-- C7: a fault-free `deletePattern` resolves with the number of live
matching bindings, removes every matching key as the store presents it, and
leaves every non-matching binding untouched; a scan-stream error resolves
with 0 and an unchanged store. -/
theorem C7_deletePattern_exact (st : SvcState) (now : Nat) (s : Store)
    (pattern : String) (ha : isAvailable st = true) (hwf : s.WF) :
    (∃ n s2, svcDeletePattern st false false false now s pattern = .settled n s2 ∧
       n = (s.data.filter (fun p => p.2.live now && keyMatches pattern p.1)).length ∧
       (∀ k, keyMatches pattern k = true → s2.liveFind now k = none) ∧
       (∀ k, keyMatches pattern k = false → s2.find k = s.find k)) ∧
    svcDeletePattern st false true false now s pattern = .settled 0 s := by
  constructor
  · refine ⟨_, _, svcDeletePattern_ok st now s pattern ha, ?_, ?_, ?_⟩
    · by_cases h0 : (redisScanMatch now s pattern).length > 0
      · simp only [h0, if_true]
        unfold redisDel
        rw [redisDel_count now _ 0 s (scan_nodup now s pattern hwf)
          (fun k hk => scan_live now s pattern k hwf hk)]
        simp [redisScanMatch]
      · simp only [h0, if_false]
        have hlen : (redisScanMatch now s pattern).length = 0 := by omega
        unfold redisScanMatch at hlen
        rw [List.length_map] at hlen
        omega
    · intro k hm
      exact scan_fold_clears now s pattern k hm
    · intro k hm
      rw [find_foldl_remove]
      have hnot : k ∉ redisScanMatch now s pattern := by
        intro hk
        rw [scan_matches now s pattern k hk] at hm
        exact Bool.noConfusion hm
      simp [hnot]
  · unfold svcDeletePattern
    rw [ha]
    simp

/-- C7 witness: the spec's exact scenario — `posts:list:page:1` and
`posts:list:page:2` are removed (count 2), `post:my-slug` survives with its
entry intact; a scan error yields 0 with the store unchanged. -/
theorem C7_deletePattern_exact_witness :
    (∃ n s2, svcDeletePattern ⟨true, true⟩ false false false 0
        ⟨[("posts:list:page:1", ⟨.str "a", none⟩),
          ("posts:list:page:2", ⟨.str "b", none⟩),
          ("post:my-slug", ⟨.str "c", none⟩)]⟩ "posts:list:*" = .settled n s2 ∧
      n = 2 ∧
      s2.liveFind 0 "posts:list:page:1" = none ∧
      s2.liveFind 0 "posts:list:page:2" = none ∧
      s2.find "post:my-slug" = some ⟨.str "c", none⟩) ∧
    svcDeletePattern ⟨true, true⟩ false true false 0
        ⟨[("posts:list:page:1", ⟨.str "a", none⟩),
          ("posts:list:page:2", ⟨.str "b", none⟩),
          ("post:my-slug", ⟨.str "c", none⟩)]⟩ "posts:list:*"
      = .settled 0 ⟨[("posts:list:page:1", ⟨.str "a", none⟩),
          ("posts:list:page:2", ⟨.str "b", none⟩),
          ("post:my-slug", ⟨.str "c", none⟩)]⟩ := by
  obtain ⟨⟨n, s2, heq, hn, hcl, hfr⟩, herr⟩ :=
    C7_deletePattern_exact ⟨true, true⟩ 0
      ⟨[("posts:list:page:1", ⟨.str "a", none⟩),
        ("posts:list:page:2", ⟨.str "b", none⟩),
        ("post:my-slug", ⟨.str "c", none⟩)]⟩ "posts:list:*" rfl
      (by unfold Store.WF; decide)
  refine ⟨⟨n, s2, heq, by rw [hn]; rfl, hcl _ (by decide), hcl _ (by decide),
    (hfr _ (by decide)).trans rfl⟩, herr⟩

/-- C4: the claim that no store fault ever escapes fails for
`deletePattern`: when the scan succeeds (finding at least one key) and the
single batched `DEL` then rejects, the `await` inside the stream's `end`
listener throws where nothing catches it — `resolve` is never called, the
promise never settles, and the rejection escapes as an unhandled promise
rejection instead of the documented fallback 0. -/
theorem C4_deletePattern_del_fault_never_settles :
    svcDeletePattern ⟨true, true⟩ false false true 0
        ⟨[("posts:list:page:1", ⟨.str "a", none⟩)]⟩ "posts:list:*"
      = .unsettled ⟨[("posts:list:page:1", ⟨.str "a", none⟩)]⟩ := by
  decide

/-- C8: invalidating a content item's (non-empty) slug `s` deletes (as the
store presents it) exactly `post:s`, every key matching `posts:list:*` or
`posts:page:*`, and the two aggregates `categories:all` / `tags:all`; every
other binding is untouched byte for byte.  The non-emptiness hypothesis
mirrors the source's `if (slug)` truthiness guard on the direct-entry
delete. -/
theorem C8_invalidatePostCache_frame (st : SvcState) (now : Nat) (s : Store)
    (slug : String) (ha : isAvailable st = true) (hslug : slug ≠ "") :
    (∀ k, (k = "post:" ++ slug ∨ keyMatches "posts:list:*" k = true ∨
        keyMatches "posts:page:*" k = true ∨ k = "categories:all" ∨ k = "tags:all") →
      (svcInvalidatePostCache st now s (some slug)).liveFind now k = none) ∧
    (∀ k, ¬(k = "post:" ++ slug ∨ keyMatches "posts:list:*" k = true ∨
        keyMatches "posts:page:*" k = true ∨ k = "categories:all" ∨ k = "tags:all") →
      (svcInvalidatePostCache st now s (some slug)).find k = s.find k) := by
  have hcomp : svcInvalidatePostCache st now s (some slug)
      = ((((s.remove ("post:" ++ slug)).scanFold now "posts:list:*").scanFold now
          "posts:page:*").remove "categories:all").remove "tags:all" := by
    unfold svcInvalidatePostCache
    dsimp only
    rw [show strTruthy (some slug) = true by simp [strTruthy, hslug], if_pos rfl]
    rw [show ((some slug).getD "") = slug from rfl]
    rw [svcDel_avail st now s ("post:" ++ slug) ha]
    rw [svcDeletePattern_ok st now _ "posts:list:*" ha]
    dsimp only
    rw [svcDeletePattern_ok st now _ "posts:page:*" ha]
    dsimp only
    rw [svcDel_avail st now _ "categories:all" ha,
      svcDel_avail st now _ "tags:all" ha]
    rfl
  rw [hcomp]
  constructor
  · intro k hk
    rcases hk with hk | hk | hk | hk | hk
    · subst hk
      apply liveFind_none_remove
      apply liveFind_none_remove
      apply liveFind_none_foldl_remove
      apply liveFind_none_foldl_remove
      exact liveFind_remove_self s _ now
    · apply liveFind_none_remove
      apply liveFind_none_remove
      apply liveFind_none_foldl_remove
      exact scan_fold_clears now _ "posts:list:*" k hk
    · apply liveFind_none_remove
      apply liveFind_none_remove
      exact scan_fold_clears now _ "posts:page:*" k hk
    · subst hk
      apply liveFind_none_remove
      exact liveFind_remove_self _ _ now
    · subst hk
      exact liveFind_remove_self _ _ now
  · intro k hk
    push_neg at hk
    obtain ⟨h1, h2, h3, h4, h5⟩ := hk
    have h2' : keyMatches "posts:list:*" k = false := by
      cases h : keyMatches "posts:list:*" k
      · rfl
      · exact absurd h h2
    have h3' : keyMatches "posts:page:*" k = false := by
      cases h : keyMatches "posts:page:*" k
      · rfl
      · exact absurd h h3
    rw [find_remove_other _ _ _ h5, find_remove_other _ _ _ h4]
    unfold Store.scanFold
    rw [find_foldl_remove]
    have hn3 : k ∉ redisScanMatch now (List.foldl (fun s k => s.remove k)
        (s.remove ("post:" ++ slug))
        (redisScanMatch now (s.remove ("post:" ++ slug)) "posts:list:*"))
        "posts:page:*" := by
      intro hc
      rw [scan_matches _ _ _ _ hc] at h3'
      exact Bool.noConfusion h3'
    rw [if_neg hn3]
    rw [find_foldl_remove]
    have hn2 : k ∉ redisScanMatch now (s.remove ("post:" ++ slug))
        "posts:list:*" := by
      intro hc
      rw [scan_matches _ _ _ _ hc] at h2'
      exact Bool.noConfusion h2'
    rw [if_neg hn2]
    exact find_remove_other _ _ _ h1

/-- C8 witness: invalidating `hello-world` clears `post:hello-world`, the
listing page and `categories:all`, while `tag:id:7` keeps its exact
binding. -/
theorem C8_invalidatePostCache_frame_witness :
    (svcInvalidatePostCache ⟨true, true⟩ 0
        ⟨[("post:hello-world", ⟨.str "a", none⟩),
          ("posts:list:page:1", ⟨.str "b", none⟩),
          ("tag:id:7", ⟨.str "c", none⟩),
          ("categories:all", ⟨.str "d", none⟩)]⟩ (some "hello-world")).liveFind 0
        "post:hello-world" = none ∧
    (svcInvalidatePostCache ⟨true, true⟩ 0
        ⟨[("post:hello-world", ⟨.str "a", none⟩),
          ("posts:list:page:1", ⟨.str "b", none⟩),
          ("tag:id:7", ⟨.str "c", none⟩),
          ("categories:all", ⟨.str "d", none⟩)]⟩ (some "hello-world")).liveFind 0
        "posts:list:page:1" = none ∧
    (svcInvalidatePostCache ⟨true, true⟩ 0
        ⟨[("post:hello-world", ⟨.str "a", none⟩),
          ("posts:list:page:1", ⟨.str "b", none⟩),
          ("tag:id:7", ⟨.str "c", none⟩),
          ("categories:all", ⟨.str "d", none⟩)]⟩ (some "hello-world")).liveFind 0
        "categories:all" = none ∧
    (svcInvalidatePostCache ⟨true, true⟩ 0
        ⟨[("post:hello-world", ⟨.str "a", none⟩),
          ("posts:list:page:1", ⟨.str "b", none⟩),
          ("tag:id:7", ⟨.str "c", none⟩),
          ("categories:all", ⟨.str "d", none⟩)]⟩ (some "hello-world")).find
        "tag:id:7" = some ⟨.str "c", none⟩ := by
  have h := C8_invalidatePostCache_frame ⟨true, true⟩ 0
    ⟨[("post:hello-world", ⟨.str "a", none⟩),
      ("posts:list:page:1", ⟨.str "b", none⟩),
      ("tag:id:7", ⟨.str "c", none⟩),
      ("categories:all", ⟨.str "d", none⟩)]⟩ "hello-world" rfl (by decide)
  exact ⟨h.1 _ (by decide), h.1 _ (by decide), h.1 _ (by decide),
    (h.2 _ (by decide)).trans rfl⟩

/-- C9 counterexample: a gated request over its declared quota (counter 1,
limit 1) is rejected with the 429 outcome, and that response carries no
headers at all — the quota headers are written only after the throw. -/
theorem C9_headers_counterexample :
    (canActivate (some (1, 60)) "h" ⟨some "u1", none, none, none, none, "GET", "/x"⟩
        ⟨true, true⟩ false false false 0
        ⟨[("rate_limit:h:user:u1", ⟨.str "1", some 5000⟩)]⟩).1
      = .rejected [] 429 60 ∧
    ((canActivate (some (1, 60)) "h" ⟨some "u1", none, none, none, none, "GET", "/x"⟩
        ⟨true, true⟩ false false false 0
        ⟨[("rate_limit:h:user:u1", ⟨.str "1", some 5000⟩)]⟩).1.headers = []) := by
  constructor <;> decide

/-- C9 amended: the registered gate attaches `X-RateLimit-Limit`,
`X-RateLimit-Remaining` and `X-RateLimit-Reset` exactly on allowed
responses of routes with a declared quota; a rejected (429) response and a
response of a route without a declared quota carry no quota headers. -/
theorem C9_headers_on_allowed_only (hn : String) (r : GateRequest) (st : SvcState)
    (f1 f2 f3 : Bool) (now : Nat) (s : Store) :
    ((canActivate none hn r st f1 f2 f3 now s).1.headers = []) ∧
    (∀ limit w,
      ((canActivate (some (limit, w)) hn r st f1 f2 f3 now s).1.headers.map (·.1))
        = (if (svcCheckRateLimit st f1 f2 f3 now s
              ("rate_limit:" ++ hn ++ ":" ++ getIdentifier r) limit w).1.allowed
           then ["X-RateLimit-Limit", "X-RateLimit-Remaining", "X-RateLimit-Reset"]
           else [])) := by
  constructor
  · rfl
  · intro limit w
    unfold canActivate
    dsimp only
    cases hcall : svcCheckRateLimit st f1 f2 f3 now s
        ("rate_limit:" ++ hn ++ ":" ++ getIdentifier r) limit w with
    | mk res s1 =>
      dsimp only
      cases hres : res.allowed
      · simp [hres, GateOutcome.headers]
      · simp [hres, GateOutcome.headers, quotaHeaders]

/-- C5 counterexample: with no per-route quota declared, the registered
guard allows the request without consulting any counter — even when the
global-fallback counter for this route and caller stands at 1000000, far
over the variant guard's 100-per-60-seconds fallback quota, which rejects
the same request. -/
theorem C5_no_global_fallback_counterexample :
    canActivate none "h" ⟨some "u1", none, none, none, none, "GET", "/x"⟩
        ⟨true, true⟩ false false false 0
        ⟨[("rate_limit:global:GET:/x:user:u1", ⟨.str "1000000", some 5000⟩)]⟩
      = (.allowed [],
         ⟨[("rate_limit:global:GET:/x:user:u1", ⟨.str "1000000", some 5000⟩)]⟩) ∧
    canActivateFwd none "h" ⟨some "u1", none, none, none, none, "GET", "/x"⟩
        ⟨true, true⟩ false false false 0
        ⟨[("rate_limit:global:GET:/x:user:u1", ⟨.str "1000000", some 5000⟩)]⟩
      = (.rejected [] 429 60,
         ⟨[("rate_limit:global:GET:/x:user:u1", ⟨.str "1000000", some 5000⟩)]⟩) := by
  constructor <;> decide

/-- C5 amended: the registered gate enforces a declared per-route quota
(a counter at or above the declared limit is rejected with 429), but a
route without a declared quota is allowed unconditionally — no counter is
read or written and the store is returned unchanged (the 100-per-60-seconds
global fallback exists only in the unregistered guard variant). -/
theorem C5_declared_quota_only (hn : String) (r : GateRequest) (st : SvcState)
    (now w : Nat) (s : Store) (l c : Int) (v : String) (e : Option Nat)
    (ha : isAvailable st = true)
    (hv : s.liveFind now ("rate_limit:" ++ hn ++ ":" ++ getIdentifier r)
        = some ⟨.str v, e⟩)
    (hc : parseIntJS v = some c) :
    (∀ f1 f2 f3, canActivate none hn r st f1 f2 f3 now s = (.allowed [], s)) ∧
    (l ≤ c → canActivate (some (l, w)) hn r st false false false now s
        = (.rejected [] 429 w, s)) := by
  constructor
  · intro f1 f2 f3
    rfl
  · intro hl
    unfold canActivate
    dsimp only
    rw [checkRateLimit_atLimit st now s _ v e l c w ha hv hc hl]
    dsimp only
    have hra : retryAfterOf (now + w * 1000) now = w := by
      unfold retryAfterOf
      omega
    rw [hra]
    rfl

/-- C5 amended witness: counter 2, declared limit 2 — undeclared route
allowed with the store untouched; declared route rejected with 429. -/
theorem C5_declared_quota_only_witness :
    canActivate none "h" ⟨some "u1", none, none, none, none, "GET", "/x"⟩
        ⟨true, true⟩ false false false 0
        ⟨[("rate_limit:h:user:u1", ⟨.str "2", some 5000⟩)]⟩
      = (.allowed [], ⟨[("rate_limit:h:user:u1", ⟨.str "2", some 5000⟩)]⟩) ∧
    canActivate (some (2, 60)) "h" ⟨some "u1", none, none, none, none, "GET", "/x"⟩
        ⟨true, true⟩ false false false 0
        ⟨[("rate_limit:h:user:u1", ⟨.str "2", some 5000⟩)]⟩
      = (.rejected [] 429 60, ⟨[("rate_limit:h:user:u1", ⟨.str "2", some 5000⟩)]⟩) := by
  have h := C5_declared_quota_only "h" ⟨some "u1", none, none, none, none, "GET", "/x"⟩
    ⟨true, true⟩ 0 60 ⟨[("rate_limit:h:user:u1", ⟨.str "2", some 5000⟩)]⟩ 2 2 "2"
    (some 5000) rfl rfl rfl
  exact ⟨h.1 false false false, h.2 le_rfl⟩

/-! ## Helper lemmas: the JSON codec round trip -/

theorem isHexDigitC_hexChar (n : Nat) (h : n < 16) : isHexDigitC (hexChar n) = true := by
  interval_cases n <;> rfl

theorem hexVal_hexChar (n : Nat) (h : n < 16) : hexVal (hexChar n) = n := by
  interval_cases n <;> rfl

theorem parseStrBody_enc (cs : List Char) : ∀ rest,
    parseStrBody (encStrChars cs ++ '"' :: rest) = some (cs, rest) := by
  induction cs with
  | nil =>
    intro rest
    simp only [encStrChars, List.foldr_nil, List.nil_append]
    unfold parseStrBody
    simp
  | cons c tail ih =>
    intro rest
    show parseStrBody ((escChar c ++ encStrChars tail) ++ '"' :: rest) = _
    rw [List.append_assoc]
    unfold escChar
    split_ifs with h1 h2 h3
    · subst h1
      unfold parseStrBody
      simp [ih rest]
    · subst h2
      unfold parseStrBody
      simp [ih rest]
    · have hdiv : c.toNat / 16 < 16 := by omega
      have hmod : c.toNat % 16 < 16 := by omega
      have hval : ((hexVal '0' * 16 + hexVal '0') * 16
          + hexVal (hexChar (c.toNat / 16))) * 16
          + hexVal (hexChar (c.toNat % 16)) = c.toNat := by
        rw [hexVal_hexChar _ hdiv, hexVal_hexChar _ hmod]
        have h0 : hexVal '0' = 0 := rfl
        rw [h0]
        omega
      have h00 : isHexDigitC '0' = true := rfl
      unfold parseStrBody
      simp [h00, isHexDigitC_hexChar _ hdiv, isHexDigitC_hexChar _ hmod,
        hval, Char.ofNat_toNat, ih rest]
    · unfold parseStrBody
      simp [h1, h2, ih rest]

theorem encVal_head (v : JVal) :
    ∃ c t, encVal v = c :: t ∧ c ≠ ']' ∧ c ≠ '\x7d' := by
  cases v with
  | num n =>
    show ∃ c t, intChars n = c :: t ∧ _
    unfold intChars
    split_ifs with hn
    · refine ⟨'-', natChars n.natAbs, rfl, ?_, ?_⟩ <;> decide
    · obtain ⟨c, t, hct, hdig⟩ := natChars_head_digit n.toNat
      refine ⟨c, t, hct, ?_, ?_⟩
      · intro h; rw [h] at hdig; exact absurd hdig (by decide)
      · intro h; rw [h] at hdig; exact absurd hdig (by decide)
  | null =>
    refine ⟨'n', ['u', 'l', 'l'], rfl, ?_, ?_⟩ <;> decide
  | bool b =>
    cases b
    · refine ⟨'f', ['a', 'l', 's', 'e'], rfl, ?_, ?_⟩ <;> decide
    · refine ⟨'t', ['r', 'u', 'e'], rfl, ?_, ?_⟩ <;> decide
  | str s =>
    refine ⟨'"', encStrChars s.data ++ ['"'], rfl, ?_, ?_⟩ <;> decide
  | arr es =>
    refine ⟨'[', encElems es ++ [']'], rfl, ?_, ?_⟩ <;> decide
  | obj fs =>
    refine ⟨'\x7b', encMembers fs ++ ['\x7d'], rfl, ?_, ?_⟩ <;> decide

theorem parseVal_digit (f : Nat) (c : Char) (cs : List Char) (hd : c.isDigit = true) :
    parseVal (f + 1) (c :: cs)
      = (parseNatNum (c :: cs)).map (fun p => (JVal.num (p.1 : Int), p.2)) := by
  have hn : c ≠ 'n' := by intro h; rw [h] at hd; exact absurd hd (by decide)
  have ht : c ≠ 't' := by intro h; rw [h] at hd; exact absurd hd (by decide)
  have hf : c ≠ 'f' := by intro h; rw [h] at hd; exact absurd hd (by decide)
  have hq : c ≠ '"' := by intro h; rw [h] at hd; exact absurd hd (by decide)
  have hb : c ≠ '[' := by intro h; rw [h] at hd; exact absurd hd (by decide)
  have hc : c ≠ '\x7b' := by intro h; rw [h] at hd; exact absurd hd (by decide)
  have hm : c ≠ '-' := by intro h; rw [h] at hd; exact absurd hd (by decide)
  unfold parseVal
  simp [hn, ht, hf, hq, hb, hc, hm, hd]

theorem nullChars : ("null".data : List Char) = 'n' :: ['u', 'l', 'l'] := rfl

theorem trueChars : ("true".data : List Char) = 't' :: ['r', 'u', 'e'] := rfl

theorem falseChars : ("false".data : List Char) = 'f' :: ['a', 'l', 's', 'e'] := rfl

theorem headNotDigit_cons (c : Char) (l : List Char) (h : c.isDigit = false) :
    headNotDigit (c :: l) := by
  intro c' hc'
  simp only [List.head?_cons, Option.some.injEq] at hc'
  subst hc'
  exact h

theorem encElems_head (v0 : JVal) (vs : List JVal) :
    ∃ c t, encElems (v0 :: vs) = c :: t ∧ c ≠ ']' ∧ c ≠ '\x7d' := by
  obtain ⟨c, t, hct, h1, h2⟩ := encVal_head v0
  cases vs with
  | nil => exact ⟨c, t, by simp [encElems, hct], h1, h2⟩
  | cons w ws =>
    exact ⟨c, t ++ ',' :: encElems (w :: ws), by simp [encElems, hct], h1, h2⟩

theorem encMembers_head (k : String) (v : JVal) (fs : List (String × JVal)) :
    ∃ t, encMembers ((k, v) :: fs) = '"' :: t := by
  cases fs with
  | nil => exact ⟨encStrChars k.data ++ '"' :: ':' :: encVal v, by simp [encMembers, encKey]⟩
  | cons g gs =>
    exact ⟨encStrChars k.data ++ '"' :: ':' :: (encVal v ++ ',' :: encMembers (g :: gs)),
      by simp [encMembers, encKey]⟩

mutual

theorem rtVal (v : JVal) : ∀ (f : Nat), fuelVal v ≤ f → ∀ rest, headNotDigit rest →
    parseVal f (encVal v ++ rest) = some (v, rest) := by
  cases v with
  | null =>
    intro f hf rest hr
    obtain ⟨f', rfl⟩ : ∃ f', f = f' + 1 := ⟨f - 1, by simp [fuelVal] at hf; omega⟩
    simp only [encVal, nullChars, List.cons_append, List.nil_append]
    unfold parseVal
    simp
  | bool b =>
    intro f hf rest hr
    obtain ⟨f', rfl⟩ : ∃ f', f = f' + 1 := ⟨f - 1, by simp [fuelVal] at hf; omega⟩
    cases b <;>
      (simp only [encVal, trueChars, falseChars, List.cons_append, List.nil_append]
       unfold parseVal
       simp)
  | num n =>
    intro f hf rest hr
    obtain ⟨f', rfl⟩ : ∃ f', f = f' + 1 := ⟨f - 1, by simp [fuelVal] at hf; omega⟩
    simp only [encVal]
    unfold intChars
    split_ifs with hn
    · simp only [List.cons_append]
      unfold parseVal
      simp only [show ('-' = 'n') = False by simp, show ('-' = 't') = False by simp,
        show ('-' = 'f') = False by simp, show ('-' = '"') = False by simp,
        show ('-' = '[') = False by simp, show ('-' = '\x7b') = False by simp,
        if_false, if_true, iff_false, eq_self_iff_true]
      rw [parseNatNum_natChars n.natAbs rest hr]
      simp only [Option.map_some']
      have : -((n.natAbs : Nat) : Int) = n := by omega
      rw [this]
    · obtain ⟨c, t, hct, hdig⟩ := natChars_head_digit n.toNat
      rw [hct, List.cons_append, parseVal_digit f' c (t ++ rest) hdig,
        ← List.cons_append, ← hct, parseNatNum_natChars n.toNat rest hr]
      simp only [Option.map_some']
      have : ((n.toNat : Nat) : Int) = n := by omega
      rw [this]
  | str s =>
    intro f hf rest hr
    obtain ⟨f', rfl⟩ : ∃ f', f = f' + 1 := ⟨f - 1, by simp [fuelVal] at hf; omega⟩
    simp only [encVal, List.cons_append, List.append_assoc, List.nil_append]
    unfold parseVal
    rw [if_neg (by decide), if_neg (by decide), if_neg (by decide), if_pos rfl]
    rw [parseStrBody_enc s.data rest]
    rfl
  | arr es =>
    intro f hf rest hr
    obtain ⟨f', rfl⟩ : ∃ f', f = f' + 1 :=
      ⟨f - 1, by simp [fuelVal] at hf; omega⟩
    cases es with
    | nil =>
      simp only [encVal, encElems, List.cons_append, List.nil_append]
      unfold parseVal
      simp
    | cons v0 vs =>
      obtain ⟨c, t, hct, hc1, _⟩ := encElems_head v0 vs
      simp only [encVal, List.cons_append, List.append_assoc, List.nil_append]
      unfold parseVal
      rw [if_neg (by decide), if_neg (by decide), if_neg (by decide),
        if_neg (by decide), if_pos rfl]
      rw [hct]
      simp only [List.cons_append]
      rw [if_neg hc1]
      rw [← List.cons_append, ← hct]
      rw [rtElems (v0 :: vs) (by simp) f'
        (by simp [fuelVal] at hf; omega) rest]
      rfl
  | obj fs =>
    intro f hf rest hr
    obtain ⟨f', rfl⟩ : ∃ f', f = f' + 1 :=
      ⟨f - 1, by simp [fuelVal] at hf; omega⟩
    cases fs with
    | nil =>
      simp only [encVal, encMembers, List.cons_append, List.nil_append]
      unfold parseVal
      simp
    | cons kv gs =>
      obtain ⟨k, v0⟩ := kv
      obtain ⟨t, hct⟩ := encMembers_head k v0 gs
      simp only [encVal, List.cons_append, List.append_assoc, List.nil_append]
      unfold parseVal
      rw [if_neg (by decide), if_neg (by decide), if_neg (by decide),
        if_neg (by decide), if_neg (by decide), if_pos rfl]
      rw [hct]
      simp only [List.cons_append]
      rw [if_neg (by decide)]
      rw [← List.cons_append, ← hct]
      rw [rtMembers ((k, v0) :: gs) (by simp) f'
        (by simp [fuelVal] at hf; omega) rest]
      rfl

theorem rtElems (es : List JVal) (hne : es ≠ []) : ∀ (f : Nat), fuelElems es ≤ f →
    ∀ rest, parseElems f (encElems es ++ ']' :: rest) = some (es, rest) := by
  cases es with
  | nil => exact absurd rfl hne
  | cons v vs =>
    intro f hf rest
    obtain ⟨f', rfl⟩ : ∃ f', f = f' + 1 := ⟨f - 1, by simp [fuelElems] at hf; omega⟩
    cases vs with
    | nil =>
      unfold parseElems
      simp only [encElems]
      rw [rtVal v f' (by simp [fuelElems, fuelVal] at hf ⊢; omega) (']' :: rest)
        (headNotDigit_cons ']' rest (by decide))]
      try dsimp only
      rw [if_neg (by decide), if_pos rfl]
    | cons w ws =>
      unfold parseElems
      have hassoc : encElems (v :: w :: ws) ++ ']' :: rest
          = encVal v ++ (',' :: (encElems (w :: ws) ++ ']' :: rest)) := by
        simp [encElems]
      rw [hassoc]
      rw [rtVal v f' (by simp [fuelElems] at hf ⊢; omega)
        (',' :: (encElems (w :: ws) ++ ']' :: rest))
        (headNotDigit_cons ',' _ (by decide))]
      try dsimp only
      rw [if_pos rfl]
      rw [rtElems (w :: ws) (by simp) f' (by simp [fuelElems] at hf ⊢; omega) rest]

theorem rtMembers (fs : List (String × JVal)) (hne : fs ≠ []) : ∀ (f : Nat),
    fuelMembers fs ≤ f → ∀ rest,
    parseMembers f (encMembers fs ++ '\x7d' :: rest) = some (fs, rest) := by
  cases fs with
  | nil => exact absurd rfl hne
  | cons kv gs =>
    obtain ⟨k, v⟩ := kv
    intro f hf rest
    obtain ⟨f', rfl⟩ : ∃ f', f = f' + 1 := ⟨f - 1, by simp [fuelMembers] at hf; omega⟩
    cases gs with
    | nil =>
      unfold parseMembers
      simp only [encMembers, encKey, List.cons_append, List.append_assoc,
        List.nil_append]
      try dsimp only
      rw [if_true]
      rw [parseStrBody_enc k.data (':' :: (encVal v ++ '\x7d' :: rest))]
      try dsimp only
      rw [if_pos rfl]
      rw [rtVal v f' (by simp [fuelMembers, fuelVal] at hf ⊢; omega)
        ('\x7d' :: rest) (headNotDigit_cons '\x7d' rest (by decide))]
      try dsimp only
      rw [if_neg (by decide), if_pos rfl]
    | cons g hs =>
      unfold parseMembers
      have hassoc : encMembers ((k, v) :: g :: hs) ++ '\x7d' :: rest
          = ('"' :: (encStrChars k.data ++ '"'
              :: (':' :: (encVal v ++ ',' :: (encMembers (g :: hs) ++ '\x7d' :: rest))))) := by
        simp [encMembers, encKey]
      rw [hassoc]
      try dsimp only
      rw [if_pos rfl]
      rw [parseStrBody_enc k.data
        (':' :: (encVal v ++ ',' :: (encMembers (g :: hs) ++ '\x7d' :: rest)))]
      try dsimp only
      rw [if_pos rfl]
      rw [rtVal v f' (by simp [fuelMembers] at hf ⊢; omega)
        (',' :: (encMembers (g :: hs) ++ '\x7d' :: rest))
        (headNotDigit_cons ',' _ (by decide))]
      try dsimp only
      rw [if_pos rfl]
      rw [rtMembers (g :: hs) (by simp) f' (by simp [fuelMembers] at hf ⊢; omega) rest]
      rfl

end

mutual

theorem fuelVal_le (v : JVal) : fuelVal v ≤ (encVal v).length + 1 := by
  cases v with
  | null => decide
  | bool b => cases b <;> decide
  | num n => simp [fuelVal]
  | str s => simp [fuelVal]
  | arr es =>
    have h := fuelElems_le es
    simp only [fuelVal, encVal, List.length_cons, List.length_append]
    omega
  | obj fs =>
    have h := fuelMembers_le fs
    simp only [fuelVal, encVal, List.length_cons, List.length_append]
    omega

theorem fuelElems_le (es : List JVal) : fuelElems es ≤ (encElems es).length + 2 := by
  cases es with
  | nil => simp [fuelElems, encElems]
  | cons v vs =>
    have hv := fuelVal_le v
    cases vs with
    | nil =>
      simp only [fuelElems, encElems]
      omega
    | cons w ws =>
      have hw := fuelElems_le (w :: ws)
      rw [show fuelElems (v :: w :: ws)
          = 1 + max (fuelVal v) (fuelElems (w :: ws)) from rfl,
        show encElems (v :: w :: ws) = encVal v ++ ',' :: encElems (w :: ws) from rfl]
      simp only [List.length_append, List.length_cons]
      omega

theorem fuelMembers_le (fs : List (String × JVal)) :
    fuelMembers fs ≤ (encMembers fs).length + 2 := by
  cases fs with
  | nil => simp [fuelMembers, encMembers]
  | cons kv gs =>
    obtain ⟨k, v⟩ := kv
    have hv := fuelVal_le v
    cases gs with
    | nil =>
      simp only [fuelMembers, encMembers, List.length_append, List.length_cons]
      omega
    | cons g hs =>
      have hg := fuelMembers_le (g :: hs)
      rw [show fuelMembers ((k, v) :: g :: hs)
          = 1 + max (fuelVal v) (fuelMembers (g :: hs)) from rfl,
        show encMembers ((k, v) :: g :: hs)
          = encKey k ++ ':' :: encVal v ++ ',' :: encMembers (g :: hs) from rfl]
      simp only [List.length_append, List.length_cons]
      omega

end

/-- The full JSON round trip: parsing the canonical serialization of any
value yields the value back. -/
theorem JSONParse_stringify (v : JVal) : JSONParse (JSONStringify v) = some v := by
  unfold JSONParse JSONStringify
  rw [data_mk]
  have h2 := rtVal v ((encVal v).length + 1) (fuelVal_le v) [] headNotDigit_nil
  rw [List.append_nil] at h2
  rw [h2]

theorem encVal_ne_nil (v : JVal) : encVal v ≠ [] := by
  obtain ⟨c, t, hct, _, _⟩ := encVal_head v
  simp [hct]

theorem JSONStringify_ne_empty (v : JVal) : JSONStringify v ≠ "" := by
  intro h
  have hd : encVal v = [] := by
    have h2 := congrArg String.data h
    rwa [show (JSONStringify v).data = encVal v from rfl,
      show String.data "" = [] from rfl] at h2
  exact encVal_ne_nil v hd

/-- C6: while the cache is available and fault-free, `setJSON(k, v, ttl)`
followed by `getJSON(k)` — with no intervening write or delete and before
any TTL expiry — returns exactly `v` (serialize/deserialize round trip). -/
theorem C6_setJSON_getJSON_roundtrip (st : SvcState) (now now2 : Nat) (s : Store)
    (k : String) (v : JVal) (ttl : Option Nat) (ha : isAvailable st = true)
    (htime : ttlTruthy ttl = true → now2 < now + (ttl.getD 0) * 1000) :
    svcGetJSON st false now2 (svcSetJSON st false now s k v ttl) k = some v := by
  have hset : svcSet st false now s k (JSONStringify v) ttl
      = s.put k ⟨.str (JSONStringify v),
          if ttlTruthy ttl then some (now + (ttl.getD 0) * 1000) else none⟩ := by
    unfold svcSet
    rw [ha]
    cases htt : ttlTruthy ttl <;> simp [htt, redisSet, redisSetex]
  have hlive : Entry.live now2 (⟨.str (JSONStringify v),
      if ttlTruthy ttl then some (now + (ttl.getD 0) * 1000) else none⟩ : Entry)
      = true := by
    cases htt : ttlTruthy ttl with
    | false => simp [Entry.live, htt]
    | true => simp [Entry.live, htt]; exact htime htt
  unfold svcSetJSON
  rw [hset]
  have hget : svcGet st false now2 (s.put k ⟨.str (JSONStringify v),
      if ttlTruthy ttl then some (now + (ttl.getD 0) * 1000) else none⟩) k
      = (some (JSONStringify v), s.put k ⟨.str (JSONStringify v),
          if ttlTruthy ttl then some (now + (ttl.getD 0) * 1000) else none⟩) := by
    unfold svcGet redisGet
    rw [ha, liveFind_put_self_live _ _ _ _ hlive]
    simp
  unfold svcGetJSON
  rw [hget]
  simp only [strTruthy]
  rw [show ((JSONStringify v != "") : Bool) = true by
    simp [JSONStringify_ne_empty v]]
  simp only [if_true, Option.getD_some]
  rw [JSONParse_stringify v]

/-- C6 witness: a structured value (object with number, string with a quote
to escape, array with null/bool/negative number, empty object) survives the
`setJSON` / `getJSON` round trip with a 60 s TTL, read 5 s later. -/
theorem C6_setJSON_getJSON_roundtrip_witness :
    svcGetJSON ⟨true, true⟩ false 5000
      (svcSetJSON ⟨true, true⟩ false 0 ⟨[]⟩ "p"
        (.obj [("a", .num 1), ("b", .str "x\"y"),
               ("c", .arr [.null, .bool true, .num (-7)]), ("d", .obj [])])
        (some 60)) "p"
      = some (.obj [("a", .num 1), ("b", .str "x\"y"),
               ("c", .arr [.null, .bool true, .num (-7)]), ("d", .obj [])]) :=
  C6_setJSON_getJSON_roundtrip ⟨true, true⟩ 0 5000 ⟨[]⟩ "p"
    (.obj [("a", .num 1), ("b", .str "x\"y"),
           ("c", .arr [.null, .bool true, .num (-7)]), ("d", .obj [])])
    (some 60) rfl (fun _ => by norm_num)

end BlogCache
